import Mathlib

set_option maxRecDepth 10000

/-!
Verification of the Karasu formatter-enforcer tool (`src/karasu/main.py`,
with the legacy flat copy `src/main.py`).

The development shallowly embeds the Python string operations used by the
tool (substring tests, `str.replace`, `str.rstrip`, `str.split`,
`"\n".join`, …) over `String`/`List Char`, then embeds each `ensure_*`
operation and the orchestration of `main` as pure functions, and proves or
refutes the specified properties.

Modelling conventions:
  * a file's state is `Option String` (`none` = absent);
  * `dry` mirrors the `--dry-run` flag threading;
  * external effects (prompts, TOML parsing, the venv builder, child
    processes) are driven by an explicit `Oracle`;
  * paths are POSIX (`sys.platform != "win32"` branches);
  * `str.lower` is modelled on ASCII.
-/

/-- Python whitespace characters, as used by `str.strip` / `str.rstrip`. -/
def isPyWS (c : Char) : Bool :=
  c = ' ' || c = '\t' || c = '\n' || c = '\r' || c = '\x0b' || c = '\x0c'

/-- `str.rstrip()` on a character list. -/
def rstripChars (s : List Char) : List Char :=
  ((s.reverse).dropWhile isPyWS).reverse

/-- `str.strip()` on a character list. -/
def stripChars (s : List Char) : List Char :=
  (rstripChars s).dropWhile isPyWS

/-- `str.rstrip()`. -/
def pyRstrip (s : String) : String := ⟨rstripChars s.data⟩

/-- `str.strip()`. -/
def pyStrip (s : String) : String := ⟨stripChars s.data⟩

/-- Locate the leftmost occurrence of `p`: returns the text before and
after it.  `none` when `p` does not occur. -/
def splitFirst (p : List Char) : List Char → Option (List Char × List Char)
  | [] => if p.isEmpty then some ([], []) else none
  | c :: cs =>
    if p.isPrefixOf (c :: cs) then some ([], (c :: cs).drop p.length)
    else
      match splitFirst p cs with
      | some (a, b) => some (c :: a, b)
      | none => none

/-- Whether `p` occurs in `s` (Python's `p in s`). -/
def occursB (p s : List Char) : Bool := (splitFirst p s).isSome

/-- Python's `pat in s`. -/
def pyIn (pat s : String) : Bool := occursB pat.data s.data

/-- Fueled worker for `str.replace` (all occurrences, left to right,
replacement text not rescanned). -/
def replChars (p r : List Char) : Nat → List Char → List Char
  | 0, s => s
  | fuel + 1, s =>
    match splitFirst p s with
    | none => s
    | some (a, b) => a ++ r ++ replChars p r fuel b

/-- Python's `s.replace(pat, r)`; the fuel `s.length + 1` is enough for
every nonempty pattern (each step consumes at least one character). -/
def pyReplace (s pat r : String) : String :=
  ⟨replChars pat.data r.data (s.data.length + 1) s.data⟩

/-- Python's `s.replace(pat, r, 1)` and `re.sub(lit, repl, s, count=1)`
for a literal pattern: replace only the leftmost occurrence. -/
def pyReplaceFirst (s pat r : String) : String :=
  match splitFirst pat.data s.data with
  | some (a, b) => ⟨a ++ r.data ++ b⟩
  | none => s

/-- Fueled count of the non-overlapping left-to-right occurrences of `p`. -/
def countOcc (p : List Char) : Nat → List Char → Nat
  | 0, _ => 0
  | fuel + 1, s =>
    match splitFirst p s with
    | none => 0
    | some (_, b) => 1 + countOcc p fuel b

/-- Python's `s.count(pat)` (non-overlapping). -/
def pyCount (pat s : String) : Nat := countOcc pat.data (s.data.length + 1) s.data

/-- `str.split(sep)` for a single-character separator, on character
lists.  Always returns at least one (possibly empty) piece. -/
def splitOnChar (sep : Char) : List Char → List (List Char)
  | [] => [[]]
  | c :: cs =>
    match splitOnChar sep cs with
    | [] => [[]]
    | l :: ls => if c = sep then [] :: l :: ls else (c :: l) :: ls

/-- Python's `s.split(c)` for a one-character separator. -/
def pySplit (s : String) (sep : Char) : List String :=
  (splitOnChar sep s.data).map String.mk

/-- `"\n".join` on character lists. -/
def joinNLc : List (List Char) → List Char
  | [] => []
  | [x] => x
  | x :: y :: xs => x ++ '\n' :: joinNLc (y :: xs)

/-- `sep.join(ls)`. -/
def joinWith (sep : String) : List String → String
  | [] => ""
  | [x] => x
  | x :: y :: xs => x ++ sep ++ joinWith sep (y :: xs)

/-- Python's `"\n".join(ls)`. -/
def joinNL (ls : List String) : String := joinWith "\n" ls

/-- Python's `s.startswith(pre)`. -/
def pyStartsWith (s pre : String) : Bool := pre.data.isPrefixOf s.data

/-- Python's `s.endswith(suf)`. -/
def pyEndsWith (s suf : String) : Bool := suf.data.isSuffixOf s.data

/-- ASCII model of `str.lower` on one character. -/
def pyLowerChar (c : Char) : Char :=
  if 'A' ≤ c ∧ c ≤ 'Z' then Char.ofNat (c.toNat + 32) else c

/-- Single-character substitution; models `str.replace(old, new)` when
`old` is one character. -/
def replaceChar (old new : Char) (c : Char) : Char := if c = old then new else c

/-- Python's `s.replace("-", "_")`, used to turn tool names into module
names. -/
def hyphenToUnderscore (s : String) : String := ⟨s.data.map (replaceChar '-' '_')⟩

/-- The character class `[a-z0-9-]` kept by the name normalizer. -/
def keepChar (c : Char) : Bool :=
  ('a' ≤ c && c ≤ 'z') || ('0' ≤ c && c ≤ '9') || c = '-'

/-- `re.sub(r"-+", "-", s)`: collapse each run of hyphens to one. -/
def collapseHyphens : List Char → List Char
  | [] => []
  | [c] => [c]
  | c :: d :: rest =>
    if c = '-' ∧ d = '-' then collapseHyphens (d :: rest)
    else c :: collapseHyphens (d :: rest)

/-- Python's `s.strip("-")`. -/
def stripHyphens (l : List Char) : List Char :=
  ((l.dropWhile (· = '-')).reverse.dropWhile (· = '-')).reverse

/-- `validate_name` (src/karasu/main.py): lowercase, `_`/` ` to `-`,
drop characters outside `[a-z0-9-]`, collapse hyphen runs, trim hyphens,
fall back to `"my-tool"` when empty. -/
def validateName (name : String) : String :=
  let n1 := ((name.data.map pyLowerChar).map (replaceChar '_' '-')).map (replaceChar ' ' '-')
  let n2 := n1.filter keepChar
  let n3 := collapseHyphens n2
  let n4 := stripHyphens n3
  if n4.isEmpty then "my-tool" else ⟨n4⟩

/-- `infer_name_from_directory`: `root.name.lower().replace(" ", "-").replace("_", "-")`. -/
def inferNameFromDirectory (rootName : String) : String :=
  ⟨((rootName.data.map pyLowerChar).map (replaceChar ' ' '-')).map (replaceChar '_' '-')⟩

/-- `validate_version` returns its argument on both of its branches (the
mismatch branch only warns). -/
def validateVersion (v : String) : String := v

/-! ### Template store (constant text blocks from src/karasu/main.py) -/

def RUFf_REV : String := "v0.6.9"

def BLACK_REV : String := "24.10.0"

def EDITORCONFIG : String :=
  "root = true\n\n[*]\nend_of_line = lf\ninsert_final_newline = true\nindent_style = space\nindent_size = 4\n\n[*.\x7bpy,pyi\x7d]\ntrim_trailing_whitespace = true\n\n[*.md]\ntrim_trailing_whitespace = false\n"

def PRECOMMIT_RUFF : String :=
  "repos:\n  - repo: https://github.com/astral-sh/ruff-pre-commit\n    rev: " ++ RUFf_REV ++ "\n    hooks:\n      - id: ruff\n        args: [--fix]\n      - id: ruff-format\n"

def PRECOMMIT_BLACK : String :=
  "  - repo: https://github.com/psf/black\n    rev: " ++ BLACK_REV ++ "\n    hooks:\n      - id: black\n"

def PYPROJECT_RUFF_BLOCK : String :=
  "[tool.ruff]\nline-length = 100\ntarget-version = \"py311\"\nexclude = [\n    \".git\",\n    \"__pycache__\",\n    \"build\",\n    \"dist\",\n    \".eggs\",\n    \"*.egg-info\",\n    \".venv\",\n    \"venv\",\n    \".mypy_cache\",\n    \".pytest_cache\",\n    \"htmlcov\",\n]\n\n[tool.ruff.lint]\nselect = [\"E\", \"F\", \"I\", \"N\", \"W\", \"UP\"]\nignore = [\"E203\", \"E501\"]\n\n[tool.ruff.lint.isort]\ncombine-as-imports = true\n\n[tool.ruff.format]\nquote-style = \"double\"\n"

def PYPROJECT_BLACK_BLOCK : String :=
  "[tool.black]\nline-length = 100\ntarget-version = [\"py311\"]\nextend-exclude = \x27\x27\x27\n/(\n  \\.eggs\n  | \\.git\n  | \\.hg\n  | \\.mypy_cache\n  | \\.tox\n  | \\.venv\n  | build\n  | dist\n)/\n\x27\x27\x27\n"

def MINIMAL_PYPROJECT_BUILD : String :=
  "[build-system]\nrequires = [\"setuptools>=45\", \"wheel\"]\nbuild-backend = \"setuptools.build_meta\"\n"

/-- `CI_TEMPLATE.format(PYVER=…, BLACK_DEP=…, BLACK_STEP=…)`: the format
holes are modelled by concatenation. -/
def ciTemplate (pyver blackDep blackStep : String) : String :=
  "name: CI\n\non:\n  push:\n    branches: [ main, master, develop ]\n  pull_request:\n    branches: [ main, master, develop ]\n\njobs:\n  lint:\n    runs-on: ubuntu-latest\n    steps:\n    - uses: actions/checkout@v4\n\n    - name: Set up Python\n      uses: actions/setup-python@v5\n      with:\n        python-version: \x27" ++ pyver ++ "\x27\n\n    - name: Install dev deps\n      run: |\n        python -m pip install --upgrade pip\n        pip install ruff" ++ blackDep ++ "\n\n    - name: Format check with Ruff\n      run: |\n        ruff format --check .\n\n    - name: Lint with Ruff\n      run: |\n        ruff check .\n\n" ++ blackStep ++ "\n"

def BLACK_DEP_STEP : String := "\n        pip install black"

def BLACK_CHECK_STEP : String :=
  "    - name: Format check with Black (backup)\n      run: |\n        black --check .\n"

def REQ_DEV_HEADER : String := "# Development dependencies\n"

/-- `MAIN_PY_TEMPLATE.format(name=…, description=…)`. -/
def mainPyTemplate (name description : String) : String :=
  "#!/usr/bin/env python3\n\"\"\"\n" ++ description ++ "\n\nUsage:\n  " ++ name ++ " [options]\n\n\"\"\"\n\nfrom __future__ import annotations\n\nimport argparse\nimport sys\n\n\ndef main() -> int:\n    \"\"\"Main entry point.\"\"\"\n    ap = argparse.ArgumentParser(description=\"" ++ description ++ "\")\n    # Add your arguments here\n\n    args = ap.parse_args()\n\n    # Your code here\n\n    return 0\n\n\nif __name__ == \"__main__\":\n    sys.exit(main())\n"

/-! ### File upsert engine -/

/-- `upsert_file`: create the file with `content` when absent (skipping
the write under dry-run); report whether a creation was due. -/
def upsertFile (cur : Option String) (content : String) (dry : Bool) :
    Option String × Bool :=
  match cur with
  | some _ => (cur, false)
  | none => (if dry then none else some content, true)

/-- `ensure_editorconfig`. -/
def ensureEditorconfig (cur : Option String) (dry : Bool) : Option String × Bool :=
  match cur with
  | some _ => (cur, false)
  | none => upsertFile none EDITORCONFIG dry

/-- The merge stage of `ensure_precommit`. -/
def precommitStep (txt0 : String) (ruffOnly : Bool) : String × Bool :=
  let r1 : String × Bool :=
    if pyIn "ruff-pre-commit" txt0 then (txt0, false)
    else (PRECOMMIT_RUFF ++ (if txt0 = "" then "" else "\n" ++ txt0), true)
  if ruffOnly = false && pyIn "psf/black" r1.1 = false then
    (pyRstrip r1.1 ++ "\n" ++ PRECOMMIT_BLACK, true)
  else r1

/-- `ensure_precommit`. -/
def ensurePrecommit (cur : Option String) (ruffOnly dry : Bool) : Option String × Bool :=
  match cur with
  | some txt0 =>
    let r2 := precommitStep txt0 ruffOnly
    if r2.2 && !dry then (some r2.1, true) else (some txt0, r2.2)
  | none =>
    upsertFile none (PRECOMMIT_RUFF ++ (if ruffOnly then "" else PRECOMMIT_BLACK)) dry

/-- The entry-point string used by `ensure_pyproject`. -/
def entryPointOf (packageName : Option String) : String :=
  match packageName with
  | some p => p ++ ".main:main"
  | none => "main:main"

/-- The `[project]` block inserted by `ensure_pyproject`. -/
def projectBlock (projectName : String) (projectVersion projectDescription : Option String)
    (pyver entry : String) : String :=
  "[project]\nname = \"" ++ projectName ++ "\"\nversion = \"" ++
    projectVersion.getD "0.1.0" ++ "\"\ndescription = \"" ++
    projectDescription.getD "CLI tool" ++ "\"\nrequires-python = \">=" ++ pyver ++
    "\"\n\n[project.scripts]\n" ++ projectName ++ " = \"" ++ entry ++ "\"\n\n"

/-- The `[project.scripts]` block inserted when `[project]` exists. -/
def scriptsBlock (projectName entry : String) : String :=
  "\n[project.scripts]\n" ++ projectName ++ " = \"" ++ entry ++ "\"\n"

/-- `PYPROJECT_RUFF_BLOCK.replace('"py311"', f'"py{pyver.replace(".", "")}"')`. -/
def ruffBlockFor (pyver : String) : String :=
  pyReplace PYPROJECT_RUFF_BLOCK "\"py311\"" ("\"py" ++ pyReplace pyver "." "" ++ "\"")

/-- `PYPROJECT_BLACK_BLOCK.replace('"py311"', f'"py{pyver.replace(".", "")}"')`. -/
def blackBlockFor (pyver : String) : String :=
  pyReplace PYPROJECT_BLACK_BLOCK "\"py311\"" ("\"py" ++ pyReplace pyver "." "" ++ "\"")

/-- Python's `list.insert(n, a)` (appends when `n` is past the end). -/
def pyInsert {α : Type} : Nat → α → List α → List α
  | 0, a, l => a :: l
  | _ + 1, a, [] => [a]
  | n + 1, a, x :: xs => x :: pyInsert n a xs

/-- The scan in `ensure_pyproject` locating where to insert the scripts
block: the index of the first section header that follows a `[project`
line (`none` when no such boundary is found before the end). -/
def scriptsIdxGo : List String → Bool → Option Nat
  | [], _ => none
  | l :: rest, inProj =>
    if pyStartsWith (pyStrip l) "[project" then (scriptsIdxGo rest true).map (· + 1)
    else if inProj && pyStartsWith (pyStrip l) "[" && !(pyStartsWith l "[project") then some 0
    else (scriptsIdxGo rest inProj).map (· + 1)

/-- `insert_idx` of `ensure_pyproject` (defaults to `len(lines)`). -/
def scriptsInsertIdx (lines : List String) : Nat :=
  (scriptsIdxGo lines false).getD lines.length

/-- The `[project]` / `[project.scripts]` stage of `ensure_pyproject`. -/
def pyprojStep1 (txt : String) (pyver : String)
    (projectName projectDescription projectVersion : Option String) (entry : String) :
    String × Bool :=
  match projectName with
  | some pn =>
    if pyIn "[project]" txt = false then
      let pb := projectBlock pn projectVersion projectDescription pyver entry
      if pyIn "[build-system]" txt then
        (pyReplaceFirst txt "[build-system]" ("[build-system]\n\n" ++ pb), true)
      else (pb ++ txt, true)
    else if pyIn "[project.scripts]" txt = false then
      if pyIn "[project]" txt then
        let lines := pySplit txt '\n'
        (joinNL (pyInsert (scriptsInsertIdx lines) (scriptsBlock pn entry) lines), true)
      else (txt, false)
    else (txt, false)
  | none => (txt, false)

/-- The Ruff/Black block stage of `ensure_pyproject`. -/
def pyprojBlocks (r1 : String × Bool) (ruffOnly : Bool) (pyver : String) : String × Bool :=
  let r2 : String × Bool :=
    if pyIn "[tool.ruff]" r1.1 = false then
      (pyRstrip r1.1 ++ (if pyEndsWith r1.1 "\n" then "\n" else "\n\n") ++ ruffBlockFor pyver,
        true)
    else r1
  if ruffOnly = false && pyIn "[tool.black]" r2.1 = false then
    (pyRstrip r2.1 ++ (if pyEndsWith r2.1 "\n" then "\n" else "\n\n") ++ blackBlockFor pyver,
      true)
  else r2

/-- `ensure_pyproject` (src/karasu/main.py). -/
def ensurePyproject (cur : Option String) (ruffOnly : Bool) (pyver : String) (dry : Bool)
    (projectName projectDescription projectVersion packageName : Option String) :
    Option String × Bool :=
  let entry := entryPointOf packageName
  match cur with
  | some txt0 =>
    let r3 := pyprojBlocks
      (pyprojStep1 txt0 pyver projectName projectDescription projectVersion entry) ruffOnly pyver
    if r3.2 && !dry then (some r3.1, true) else (some txt0, r3.2)
  | none =>
    let pb :=
      match projectName with
      | some pn => projectBlock pn projectVersion projectDescription pyver entry
      | none => ""
    let body := MINIMAL_PYPROJECT_BUILD ++ "\n\n" ++ pb ++ ruffBlockFor pyver
    let body := if ruffOnly then body else body ++ "\n\n" ++ blackBlockFor pyver
    upsertFile none body dry

/-- The merge stage of `ensure_ci` (src/karasu/main.py, including the
dependency-line amendment absent from the legacy copy). -/
def ciStep (txt0 : String) (ruffOnly : Bool) (pyver : String) : String × Bool :=
  if pyIn "ruff format --check" txt0 = false || pyIn "ruff check" txt0 = false then
    (pyRstrip txt0 ++ "\n\n" ++ ciTemplate pyver (if ruffOnly then "" else BLACK_DEP_STEP)
      (if ruffOnly then "" else BLACK_CHECK_STEP), true)
  else if ruffOnly = false then
    if pyIn "black --check" txt0 = false then
      let t1 :=
        if pyIn "pip install ruff" txt0 && pyIn "pip install black" txt0 = false then
          pyReplace txt0 "pip install ruff" ("pip install ruff" ++ BLACK_DEP_STEP)
        else txt0
      let t2 := if pyEndsWith t1 "\n" then t1 else t1 ++ "\n"
      (t2 ++ "\n" ++ BLACK_CHECK_STEP, true)
    else if pyIn "pip install black" txt0 = false && pyIn "pip install ruff" txt0 then
      (pyReplaceFirst txt0 "pip install ruff" "pip install ruff\n        pip install black",
        true)
    else (txt0, false)
  else (txt0, false)

def ensureCI (cur : Option String) (ruffOnly : Bool) (pyver : String) (dry : Bool) :
    Option String × Bool :=
  match cur with
  | some txt0 =>
    let r1 := ciStep txt0 ruffOnly pyver
    if r1.2 && !dry then (some r1.1, true) else (some txt0, r1.2)
  | none =>
    upsertFile none (ciTemplate pyver (if ruffOnly then "" else BLACK_DEP_STEP)
      (if ruffOnly then "" else BLACK_CHECK_STEP)) dry

/-- `w.split(">")[0]`: the package name of a wanted dependency line. -/
def pkgOf (w : String) : String := ⟨w.data.takeWhile (fun c => c ≠ '>')⟩

/-- The `want` list of `ensure_requirements_dev`. -/
def reqWant (ruffOnly : Bool) : List String :=
  ["ruff>=0.6.9", "pre-commit>=3.0.0"] ++ (if ruffOnly then [] else ["black>=24.10.0"])

/-- `re.search(rf"(?m)^{re.escape(name)}", txt) is not None` for a
literal `name`: some line of `txt` starts with `name`. -/
def lineStartHit (name txt : String) : Bool :=
  pyStartsWith txt name || pyIn ("\n" ++ name) txt

/-- `ensure_requirements_dev`. -/
def ensureRequirementsDev (cur : Option String) (ruffOnly dry : Bool) :
    Option String × Bool :=
  let want := reqWant ruffOnly
  match cur with
  | some txt0 =>
    let missing := want.filter (fun w => lineStartHit (pkgOf w) txt0 = false)
    if missing.isEmpty then (some txt0, false)
    else if dry then (some txt0, true)
    else
      let t1 := if pyStartsWith (pyStrip txt0) "#" then txt0 else REQ_DEV_HEADER ++ txt0
      (some (pyRstrip t1 ++ "\n" ++ joinNL missing ++ "\n"), true)
  | none => upsertFile none (REQ_DEV_HEADER ++ joinNL (reqWant ruffOnly) ++ "\n") dry

/-! ### Filesystem, CLI options and external-effect oracle -/

/-- A non-hidden-or-hidden immediate subdirectory of the project root, as
far as the tool inspects it: its name, whether `__init__.py` exists in
it, and the content of its `main.py` (if any). -/
structure PkgDir where
  name : String
  hasInit : Bool
  mainPy : Option String
deriving DecidableEq

/-- The slice of the filesystem the tool reads and writes.  Python
sources other than the entry files are not modelled. -/
structure FS where
  rootName : String
  editorconfig : Option String
  precommit : Option String
  pyproject : Option String
  ciYml : Option String
  reqDev : Option String
  rootMainPy : Option String
  dirs : List PkgDir
  venvExists : Bool
deriving DecidableEq

/-- How a run can abort: `cancelled` is the `sys.exit(1)` on
EOF/KeyboardInterrupt during a prompt; `uncaughtError` is an uncaught
exception (traceback, nonzero process exit). -/
inductive AbortKind
  | cancelled
  | uncaughtError
deriving DecidableEq

/-- Results of the external world: interactive answers (`none` models
end-of-input/interrupt), availability and outcome of the TOML parser,
and outcomes of the venv builder and child processes. -/
structure Oracle where
  promptName : Option String
  promptDesc : Option String
  promptVersion : Option String
  tomlAvail : Bool
  tomlOk : Bool
  tomlPackages : List String
  venvCreateOk : Bool
  venvPythonAppears : Bool
  pipOk : Bool
  ruffFound : Bool
  ruffVersionRc : Nat
  blackFound : Bool
  blackVersionRc : Nat
  precommitFound : Bool
  precommitVersionRc : Nat
  toolBinExists : String → Bool

/-- The command-line options (`--initialize` is `initMode`). -/
structure Args where
  python : String
  ruffOnly : Bool
  dryRun : Bool
  noFormat : Bool
  noInstallHooks : Bool
  noVenv : Bool
  initMode : Bool
  nameOpt : Option String
  descOpt : Option String
  versionOpt : Option String

/-- The observable outcome of a run: final filesystem, child processes
launched, how/whether the run aborted, and the per-artifact changed
flags reported by the ensure operations. -/
structure RunResult where
  fs : FS
  procs : List (List String)
  abort : Option AbortKind
  report : List (String × Bool)
deriving DecidableEq

def findDir (dirs : List PkgDir) (n : String) : Option PkgDir :=
  dirs.find? (fun d => d.name == n)

def updateDir (dirs : List PkgDir) (n : String) (f : PkgDir → PkgDir) : List PkgDir :=
  dirs.map (fun d => if d.name == n then f d else d)

/-- `Path.mkdir(parents=True, exist_ok=True)` for an immediate
subdirectory. -/
def mkdirP (dirs : List PkgDir) (n : String) : List PkgDir :=
  if (findDir dirs n).isSome then dirs else dirs ++ [⟨n, false, none⟩]

/-- `detect_package_structure`: first non-hidden subdirectory holding an
`__init__.py`; otherwise the first package declared under
`tool.setuptools.packages` of `pyproject.toml` when its directory and
marker exist.  Only `ImportError` is caught around the TOML parse, so a
parse failure propagates (`uncaughtError`). -/
def detectPackageStructure (fs : FS) (o : Oracle) :
    Except AbortKind (Option (String × String)) :=
  match fs.dirs.find? (fun d => !(pyStartsWith d.name ".") && d.hasInit) with
  | some d => .ok (some (hyphenToUnderscore d.name, d.name))
  | none =>
    if fs.pyproject.isSome then
      if o.tomlAvail then
        if o.tomlOk then
          match o.tomlPackages with
          | [] => .ok none
          | p :: _ =>
            match findDir fs.dirs p with
            | some d => if d.hasInit then .ok (some (hyphenToUnderscore p, p)) else .ok none
            | none => .ok none
        else .error .uncaughtError
      else .ok none
    else .ok none

/-- One interactive value of `initialize_project`: use the CLI value
when truthy, otherwise prompt (strip the answer, fall back to the
default on an empty answer, abort on EOF/interrupt). -/
def askIf (valOpt : Option String) (answer : Option String) (deflt : String) :
    Except AbortKind String :=
  match valOpt with
  | some v =>
    if v = "" then
      match answer with
      | none => .error .cancelled
      | some u => .ok (if pyStrip u = "" then deflt else pyStrip u)
    else .ok v
  | none =>
    match answer with
    | none => .error .cancelled
    | some u => .ok (if pyStrip u = "" then deflt else pyStrip u)

/-- The filesystem effect of `initialize_project` (all of its writes are
individually guarded by `not dry`). -/
def initApply (fs : FS) (name desc : String) (dry : Bool) : FS :=
  if dry then fs
  else
    let dirs1 :=
      if (findDir fs.dirs name).isSome then fs.dirs
      else fs.dirs ++ [⟨name, true, none⟩]
    let mainPyExists := ((findDir dirs1 name).bind (·.mainPy)).isSome
    let wasCreated := !mainPyExists
    let dirs2 :=
      if mainPyExists then dirs1
      else updateDir dirs1 name (fun dd => { dd with mainPy := some (mainPyTemplate name desc) })
    match (findDir dirs2 name).bind (·.mainPy) with
    | some c =>
      if wasCreated || pyIn "my-tool" c then
        let dirs3 := updateDir dirs2 name
          (fun dd => { dd with mainPy := some (mainPyTemplate name desc) })
        { fs with dirs := dirs3 }
      else { fs with dirs := dirs2 }
    | none => { fs with dirs := dirs2 }

/-- `initialize_project`: prompts (with cancellation), name/version
validation, then the package scaffolding writes.  Returns the new
filesystem with `(name, description, version, package_name)`. -/
def initializeProject (a : Args) (fs : FS) (o : Oracle) :
    Except AbortKind (FS × String × String × String × String) :=
  match askIf a.nameOpt o.promptName (inferNameFromDirectory fs.rootName) with
  | .error e => .error e
  | .ok rawName =>
    let name := validateName rawName
    match askIf a.descOpt o.promptDesc "CLI tool" with
    | .error e => .error e
    | .ok desc =>
      match askIf a.versionOpt o.promptVersion "0.1.0" with
      | .error e => .error e
      | .ok ver0 =>
        let ver := validateVersion ver0
        let pkgName := hyphenToUnderscore name
        .ok (initApply fs name desc a.dryRun, name, desc, ver, pkgName)

/-- The flat-to-package conversion of `main`: create the package
directory, ensure its `__init__.py`, copy the root `main.py` content in,
then unlink the root `main.py`. -/
def convertFlat (fs : FS) (potential content : String) : FS :=
  let dirs1 := mkdirP fs.dirs potential
  let dirs2 := updateDir dirs1 potential (fun d => { d with hasInit := true })
  let dirs3 := updateDir dirs2 potential (fun d => { d with mainPy := some content })
  { fs with dirs := dirs3, rootMainPy := none }

/-- `ensure_venv_and_deps`: reuse an existing `.venv`; otherwise create
it and `pip install` the pinned dependencies, downgrading every failure
to a warning (`none` handle). -/
def ensureVenvAndDeps (fs : FS) (o : Oracle) (ruffOnly dry : Bool) :
    FS × List (List String) × Option String :=
  let vp := ".venv/bin/python"
  if fs.venvExists then (fs, [], some vp)
  else if dry then (fs, [], some vp)
  else if !o.venvCreateOk then (fs, [], none)
  else
    let fs1 := { fs with venvExists := true }
    if !o.venvPythonAppears then (fs1, [], none)
    else
      let deps := ["ruff>=0.6.9", "pre-commit>=3.0.0"] ++
        (if ruffOnly then [] else ["black>=24.10.0"])
      let cmd := [vp, "-m", "pip", "install", "--quiet"] ++ deps
      if o.pipOk then (fs1, [cmd], some vp) else (fs1, [cmd], none)

def pathParentJoin (p child : String) : String :=
  joinWith "/" ((pySplit p '/').dropLast) ++ "/" ++ child

/-- `get_tool_command` (src/karasu/main.py): venv binary when present,
else `python -m` with hyphens turned into underscores, else the bare
name for PATH lookup. -/
def getToolCommand (venvPython : Option String) (tool : String)
    (binExists : String → Bool) : List String :=
  match venvPython with
  | some vp =>
    if binExists tool then [pathParentJoin vp tool]
    else [vp, "-m", hyphenToUnderscore tool]
  | none => [tool]

/-- The legacy `get_tool_command` of the root-level copy
(src/main.py): identical except that the module fallback passes the tool
name through unchanged. -/
def getToolCommandLegacy (venvPython : Option String) (tool : String)
    (binExists : String → Bool) : List String :=
  match venvPython with
  | some vp =>
    if binExists tool then [pathParentJoin vp tool]
    else [vp, "-m", tool]
  | none => [tool]

/-- The child processes launched by `format_code` (warnings and prints
are not modelled; a missing executable raises `FileNotFoundError`
before any child runs and is caught). -/
def formatCodeProcs (o : Oracle) (ruffOnly dry : Bool) (venvPy : Option String) :
    List (List String) :=
  if dry then []
  else
    let ruffCmd := getToolCommand venvPy "ruff" o.toolBinExists
    if !o.ruffFound then []
    else if o.ruffVersionRc != 0 then [ruffCmd ++ ["--version"]]
    else
      let p1 := [ruffCmd ++ ["--version"], ruffCmd ++ ["format", "."],
        ruffCmd ++ ["check", "--fix", "."]]
      if ruffOnly then p1
      else
        let blackCmd := getToolCommand venvPy "black" o.toolBinExists
        if !o.blackFound then p1
        else if o.blackVersionRc != 0 then p1 ++ [blackCmd ++ ["--version"]]
        else p1 ++ [blackCmd ++ ["--version"], blackCmd ++ ["."]]

/-- The child processes launched by `install_precommit_hooks`. -/
def installHooksProcs (fs : FS) (o : Oracle) (dry : Bool) (venvPy : Option String) :
    List (List String) :=
  if dry then []
  else
    let cmd := getToolCommand venvPy "pre-commit" o.toolBinExists
    if !o.precommitFound then []
    else if o.precommitVersionRc != 0 then [cmd ++ ["--version"]]
    else if fs.precommit.isNone then [cmd ++ ["--version"]]
    else [cmd ++ ["--version"], cmd ++ ["install"]]

/-- The initialization / layout-detection / conversion phase of `main`
(src/karasu/main.py). -/
def runPhase1 (a : Args) (fs : FS) (o : Oracle) :
    Except AbortKind (FS × Option String × Option String × Option String × Option String) :=
  if a.initMode then
    match initializeProject a fs o with
    | .error e => .error e
    | .ok (fs1, n, d, v, p) => .ok (fs1, some n, some d, some v, some p)
  else
    match detectPackageStructure fs o with
    | .error e => .error e
    | .ok found =>
      if fs.rootMainPy.isSome && found.isNone then
        let potential := inferNameFromDirectory fs.rootName
        let pkg := hyphenToUnderscore potential
        if a.dryRun then .ok (fs, some potential, none, none, some pkg)
        else
          match fs.rootMainPy with
          | some content =>
            .ok (convertFlat fs potential content, some potential, none, none, some pkg)
          | none => .ok (fs, none, none, none, none)
      else .ok (fs, none, none, none, found.map Prod.fst)

/-- The venv / ensure / format / hooks phase of `main`. -/
def runPhase2 (a : Args) (o : Oracle) (fs1 : FS) (pn pd pv pkg : Option String) : RunResult :=
  let v2 :=
    if !a.noVenv && !a.dryRun then ensureVenvAndDeps fs1 o a.ruffOnly a.dryRun
    else (fs1, [], none)
  let fs2 := v2.1
  let (ec, b1) := ensureEditorconfig fs2.editorconfig a.dryRun
  let (pc, b2) := ensurePrecommit fs2.precommit a.ruffOnly a.dryRun
  let (pp, b3) := ensurePyproject fs2.pyproject a.ruffOnly a.python a.dryRun pn pd pv pkg
  let (ci, b4) := ensureCI fs2.ciYml a.ruffOnly a.python a.dryRun
  let (rd, b5) := ensureRequirementsDev fs2.reqDev a.ruffOnly a.dryRun
  let fs3 := { fs2 with editorconfig := ec, precommit := pc, pyproject := pp, ciYml := ci, reqDev := rd }
  let report := [("editorconfig", b1), ("pre-commit", b2), ("pyproject", b3),
    ("ci", b4), ("requirements-dev", b5)]
  let procs4 := if !a.noFormat && !a.dryRun then formatCodeProcs o a.ruffOnly a.dryRun v2.2.2
    else []
  let procs5 := if !a.noInstallHooks && !a.dryRun then installHooksProcs fs3 o a.dryRun v2.2.2
    else []
  ⟨fs3, v2.2.1 ++ procs4 ++ procs5, none, report⟩

/-- `main` (src/karasu/main.py): initialization or layout
detection/conversion, optional venv bootstrap, the five ensure
operations, then formatting and hook installation. -/
def runMain (a : Args) (fs : FS) (o : Oracle) : RunResult :=
  match runPhase1 a fs o with
  | .error e => ⟨fs, [], some e, []⟩
  | .ok (fs1, pn, pd, pv, pkg) => runPhase2 a o fs1 pn pd pv pkg

/-! ### Spec-side definitions (for refinement claims) -/

/-- Spec-side, from the spec's wording of name normalization: spaces and
underscores turn into hyphens, everything else is lowercased. -/
def specCharNormalize (c : Char) : Char :=
  if c = ' ' ∨ c = '_' then '-' else pyLowerChar c

/-- Spec-side collapse of hyphen runs, written as a fold. -/
def specCollapse (l : List Char) : List Char :=
  l.foldr (fun c acc => if c = '-' ∧ acc.head? = some '-' then acc else c :: acc) []

/-- Spec-side name normalization, following the spec sentence: lowercase
with spaces/underscores as hyphens, strip characters outside
`[a-z0-9-]`, collapse hyphen runs, trim hyphens, default `"my-tool"`. -/
def specNormalize (name : String) : String :=
  let s := (name.data.map specCharNormalize).filter keepChar
  let s4 := stripHyphens (specCollapse s)
  if s4.isEmpty then "my-tool" else ⟨s4⟩

/-- Spec-side dependency presence: some line of the manifest starts with
the package name. -/
def linePresentSpec (name txt : String) : Prop :=
  ∃ l ∈ pySplit txt '\n', pyStartsWith l name = true

/-! ### Basic string/list lemmas -/

theorem strEq : ∀ {a b : String}, a.data = b.data → a = b := by
  intro a b h
  cases a
  cases b
  exact congrArg String.mk h

theorem splitFirst_some_eq {p : List Char} :
    ∀ {s a b : List Char}, splitFirst p s = some (a, b) → s = a ++ p ++ b := by
  intro s
  induction s with
  | nil =>
    intro a b h
    by_cases hp : p.isEmpty
    · simp only [splitFirst, hp, if_pos] at h
      obtain ⟨rfl, rfl⟩ : a = [] ∧ b = [] := by
        constructor <;> { cases h; rfl }
      have : p = [] := by simpa [List.isEmpty_iff] using hp
      simp [this]
    · simp [splitFirst, hp] at h
  | cons c cs ih =>
    intro a b h
    by_cases hp : p.isPrefixOf (c :: cs)
    · simp only [splitFirst, hp, if_pos] at h
      obtain ⟨t, ht⟩ : p <+: c :: cs := List.isPrefixOf_iff_prefix.mp hp
      obtain ⟨rfl, rfl⟩ : a = [] ∧ b = (c :: cs).drop p.length := by
        constructor <;> { cases h; rfl }
      rw [← ht, List.drop_left]
      simp
    · simp only [splitFirst, hp, if_neg, Bool.false_eq_true, not_false_iff] at h
      cases hsf : splitFirst p cs with
      | none => rw [hsf] at h; cases h
      | some ab =>
        obtain ⟨a', b'⟩ := ab
        rw [hsf] at h
        cases h
        have := ih hsf
        simp [this]

theorem occursB_iff {p s : List Char} : occursB p s = true ↔ p <:+: s := by
  constructor
  · intro h
    rw [occursB, Option.isSome_iff_exists] at h
    obtain ⟨⟨a, b⟩, hab⟩ := h
    exact ⟨a, b, (splitFirst_some_eq hab).symm⟩
  · intro h
    induction s with
    | nil =>
      have : p = [] := by simpa using h
      simp [occursB, splitFirst, this]
    | cons c cs ih =>
      rcases List.infix_cons_iff.mp h with hpre | hinf
      · have hb : p.isPrefixOf (c :: cs) = true := List.isPrefixOf_iff_prefix.mpr hpre
        simp [occursB, splitFirst, hb]
      · have := ih hinf
        rw [occursB, Option.isSome_iff_exists] at this
        obtain ⟨⟨a', b'⟩, hab⟩ := this
        by_cases hb : p.isPrefixOf (c :: cs)
        · simp [occursB, splitFirst, hb]
        · simp [occursB, splitFirst, hb, hab]

theorem pyIn_iff {pat s : String} : pyIn pat s = true ↔ pat.data <:+: s.data := by
  rw [pyIn]; exact occursB_iff

theorem pyIn_false_iff {pat s : String} : pyIn pat s = false ↔ ¬ pat.data <:+: s.data := by
  rw [← pyIn_iff]
  cases pyIn pat s <;> simp

theorem infix_left_lift {M x y : List Char} (h : M <:+: x) : M <:+: x ++ y :=
  h.trans (List.prefix_append x y).isInfix

theorem infix_right_lift {M x y : List Char} (h : M <:+: y) : M <:+: x ++ y :=
  h.trans (List.suffix_append x y).isInfix

theorem prefix_append_cases {t x y : List Char} (h : t <+: x ++ y) :
    t <+: x ∨ ∃ t₂, t = x ++ t₂ ∧ t₂ <+: y := by
  induction x generalizing t with
  | nil => exact Or.inr ⟨t, by simp, by simpa using h⟩
  | cons a x' ih =>
    rcases List.prefix_cons_iff.mp h with rfl | ⟨t', rfl, ht'⟩
    · exact Or.inl (List.nil_prefix)
    · rcases ih ht' with h1 | ⟨t₂, rfl, h2⟩
      · exact Or.inl (by simpa [List.cons_prefix_cons] using h1)
      · exact Or.inr ⟨t₂, by simp, h2⟩

theorem infix_append_cases {M x y : List Char} (h : M <:+: x ++ y) :
    M <:+: x ∨ M <:+: y ∨
      ∃ m₁ m₂, M = m₁ ++ m₂ ∧ m₁ ≠ [] ∧ m₂ ≠ [] ∧ m₁ <:+ x ∧ m₂ <+: y := by
  induction x with
  | nil => exact Or.inr (Or.inl (by simpa using h))
  | cons a x' ih =>
    have h' : M <:+: a :: (x' ++ y) := by simpa using h
    rcases List.infix_cons_iff.mp h' with hpre | hinf
    · have hpre' : M <+: (a :: x') ++ y := by simpa using hpre
      rcases prefix_append_cases hpre' with h1 | ⟨m₂, rfl, h2⟩
      · exact Or.inl h1.isInfix
      · rcases eq_or_ne m₂ [] with rfl | hne
        · exact Or.inl (by simp [List.infix_rfl])
        · exact Or.inr (Or.inr ⟨a :: x', m₂, rfl, by simp, hne, List.suffix_rfl, h2⟩)
    · rcases ih hinf with h1 | h1 | ⟨m₁, m₂, rfl, hn1, hn2, hs, hp⟩
      · exact Or.inl (List.infix_cons h1)
      · exact Or.inr (Or.inl h1)
      · exact Or.inr (Or.inr ⟨m₁, m₂, rfl, hn1, hn2, hs.trans (List.suffix_cons a x'), hp⟩)

theorem infix_append_no_boundary {M x y : List Char} {c₀ : Char}
    (h : M <:+: x ++ y) (hM : ∀ c ∈ M, c ≠ c₀) (hy : ∃ t, y = c₀ :: t) :
    M <:+: x ∨ M <:+: y := by
  rcases infix_append_cases h with h1 | h1 | ⟨m₁, m₂, rfl, _, hn2, _, hp⟩
  · exact Or.inl h1
  · exact Or.inr h1
  · exfalso
    obtain ⟨t, rfl⟩ := hy
    rcases List.prefix_cons_iff.mp hp with rfl | ⟨t', rfl, _⟩
    · exact hn2 rfl
    · exact hM c₀ (by simp) rfl

theorem marker_survives_step {M P a b : List Char}
    (hM : M <:+: (a ++ P) ++ b)
    (hPM : ¬ P <:+: M)
    (hbad : ∀ m₁, m₁ <:+ P → m₁ ≠ [] → m₁ <+: M →
      ¬ (P ++ M.drop m₁.length) <:+: (a ++ P) ++ b) :
    M <:+: a ++ P ∨ M <:+: b := by
  rcases infix_append_cases hM with h1 | h1 | ⟨m₁, m₂, rfl, hn1, _, hs, hp⟩
  · exact Or.inl h1
  · exact Or.inr h1
  · exfalso
    rcases List.suffix_or_suffix_of_suffix hs (List.suffix_append a P) with h2 | h2
    · refine hbad m₁ h2 hn1 (List.prefix_append m₁ m₂) ?_
      rw [List.drop_left]
      obtain ⟨t, rfl⟩ := hp
      refine List.infix_iff_prefix_suffix.mpr ⟨P ++ (m₂ ++ t), ?_, ?_⟩
      · exact ⟨t, by simp⟩
      · rw [List.append_assoc]
        exact List.suffix_append a (P ++ (m₂ ++ t))
    · exact hPM (h2.isInfix.trans (List.prefix_append m₁ m₂).isInfix)

theorem marker_survives_repl {M P ins : List Char} (hPM : ¬ P <:+: M) :
    ∀ fuel s, M <:+: s →
      (∀ m₁, m₁ <:+ P → m₁ ≠ [] → m₁ <+: M → ¬ (P ++ M.drop m₁.length) <:+: s) →
      M <:+: replChars P (P ++ ins) fuel s := by
  intro fuel
  induction fuel with
  | zero => intro s hM _; simpa [replChars] using hM
  | succ fuel ih =>
    intro s hM hbad
    cases hsf : splitFirst P s with
    | none => simpa [replChars, hsf] using hM
    | some ab =>
      obtain ⟨a, b⟩ := ab
      have hs : s = a ++ P ++ b := splitFirst_some_eq hsf
      subst hs
      rw [replChars]
      simp only [hsf]
      rcases marker_survives_step hM hPM hbad with h1 | h1
      · have : M <:+: (a ++ (P ++ ins)) ++ replChars P (P ++ ins) fuel b := by
          refine infix_left_lift ?_
          have := infix_left_lift (y := ins) h1
          simpa using this
        simpa using this
      · have hb : M <:+: replChars P (P ++ ins) fuel b := by
          refine ih b h1 ?_
          intro m₁ w1 w2 w3 hcon
          exact hbad m₁ w1 w2 w3 (hcon.trans (List.suffix_append (a ++ P) b).isInfix)
        have : M <:+: (a ++ (P ++ ins)) ++ replChars P (P ++ ins) fuel b :=
          infix_right_lift hb
        simpa using this

/-- Turn the overlap side-condition of `marker_survives_step` into a
finite list of forbidden substrings, checkable by `decide` for concrete
`P` and `M`. -/
theorem hbad_of_bads {P M : List Char} (bads : List (List Char))
    (hb : ∀ m₁ ∈ P.tails, (!m₁.isEmpty && m₁.isPrefixOf M) = true →
      (P ++ M.drop m₁.length) ∈ bads)
    {s : List Char} (hs : ∀ B ∈ bads, ¬ B <:+: s) :
    ∀ m₁, m₁ <:+ P → m₁ ≠ [] → m₁ <+: M → ¬ (P ++ M.drop m₁.length) <:+: s := by
  intro m₁ h1 h2 h3
  refine hs _ (hb m₁ ((List.mem_tails _ _).mpr h1) ?_)
  simp only [Bool.and_eq_true, Bool.not_eq_true', List.isEmpty_iff]
  exact ⟨by simpa using h2, List.isPrefixOf_iff_prefix.mpr h3⟩

/-! ### rstrip lemmas -/

theorem rstrip_preserves_infix {M s : List Char} {c₀ : Char} {t : List Char}
    (hrev : M.reverse = c₀ :: t) (hws : isPyWS c₀ = false)
    (h : M <:+: s) : M <:+: rstripChars s := by
  obtain ⟨l, r, hs⟩ := h
  subst hs
  rw [rstripChars]
  have h1 : (l ++ M ++ r).reverse = r.reverse ++ (M.reverse ++ l.reverse) := by
    simp [List.reverse_append]
  rw [h1, List.dropWhile_append]
  by_cases hd : ((r.reverse.dropWhile isPyWS).isEmpty) = true
  · rw [if_pos hd, List.dropWhile_append, hrev, List.dropWhile_cons_of_neg (by simp [hws])]
    rw [if_neg (by simp)]
    have h2 : ((c₀ :: t) ++ l.reverse).reverse = l ++ M := by
      rw [← hrev]
      simp [List.reverse_append]
    rw [h2]
    exact (List.suffix_append l M).isInfix
  · rw [if_neg hd]
    have h2 : (List.dropWhile isPyWS r.reverse ++ (M.reverse ++ l.reverse)).reverse
        = (l ++ M) ++ (List.dropWhile isPyWS r.reverse).reverse := by
      simp [List.reverse_append]
    rw [h2]
    exact infix_left_lift (List.suffix_append l M).isInfix

theorem rstrip_preserves_prefix {N s : List Char} {c₀ : Char} {t : List Char}
    (hrev : N.reverse = c₀ :: t) (hws : isPyWS c₀ = false)
    (h : N <+: s) : N <+: rstripChars s := by
  obtain ⟨u, hs⟩ := h
  subst hs
  rw [rstripChars, List.reverse_append, List.dropWhile_append]
  by_cases hd : ((u.reverse.dropWhile isPyWS).isEmpty) = true
  · rw [if_pos hd, hrev, List.dropWhile_cons_of_neg (by simp [hws])]
    have h2 : ((c₀ :: t) : List Char).reverse = N := by rw [← hrev, List.reverse_reverse]
    rw [h2]
  · rw [if_neg hd]
    have h2 : (List.dropWhile isPyWS u.reverse ++ N.reverse).reverse
        = N ++ (List.dropWhile isPyWS u.reverse).reverse := by
      simp [List.reverse_append]
    rw [h2]
    exact List.prefix_append N _

theorem rstrip_eq_self {s : List Char} {c₀ : Char} {t : List Char}
    (hrev : s.reverse = c₀ :: t) (hws : isPyWS c₀ = false) : rstripChars s = s := by
  rw [rstripChars, hrev, List.dropWhile_cons_of_neg (by simp [hws]), ← hrev,
    List.reverse_reverse]

/-! ### split / join lemmas -/

theorem splitOnChar_cons_exists (sep : Char) :
    ∀ s : List Char, ∃ l ls, splitOnChar sep s = l :: ls := by
  intro s
  cases s with
  | nil => exact ⟨[], [], rfl⟩
  | cons c cs =>
    obtain ⟨l, ls, h⟩ := splitOnChar_cons_exists sep cs
    by_cases hc : c = sep
    · exact ⟨[], l :: ls, by simp [splitOnChar, h, hc]⟩
    · exact ⟨c :: l, ls, by simp [splitOnChar, h, hc]⟩

theorem prefix_first_line {sep : Char} :
    ∀ {s t l : List Char} {ls : List (List Char)},
      t <+: s → (∀ ch ∈ t, ch ≠ sep) → splitOnChar sep s = l :: ls → t <+: l := by
  intro s
  induction s with
  | nil =>
    intro t l ls ht _ hsp
    have : t = [] := List.prefix_nil.mp ht
    subst this
    exact List.nil_prefix
  | cons c cs ih =>
    intro t l ls ht hch hsp
    obtain ⟨l', ls', h'⟩ := splitOnChar_cons_exists sep cs
    by_cases hc : c = sep
    · rcases List.prefix_cons_iff.mp ht with rfl | ⟨t', rfl, _⟩
      · exact List.nil_prefix
      · exact absurd hc (hch c (by simp))
    · simp only [splitOnChar, h', if_neg hc] at hsp
      rcases List.prefix_cons_iff.mp ht with rfl | ⟨t', rfl, ht'⟩
      · exact List.nil_prefix
      · have hl : l = c :: l' := by cases hsp; rfl
        subst hl
        have : t' <+: l' := ih ht' (fun ch hm => hch ch (by simp [hm])) h'
        simpa [List.cons_prefix_cons] using this

theorem firstLinePref {sep : Char} :
    ∀ {s l : List Char} {ls : List (List Char)},
      splitOnChar sep s = l :: ls → l <+: s := by
  intro s
  induction s with
  | nil =>
    intro l ls hsp
    have : l = [] := by cases hsp; rfl
    simp [this]
  | cons c cs ih =>
    intro l ls hsp
    obtain ⟨l', ls', h'⟩ := splitOnChar_cons_exists sep cs
    by_cases hc : c = sep
    · simp only [splitOnChar, h', if_pos hc] at hsp
      have : l = [] := by cases hsp; rfl
      simp [this]
    · simp only [splitOnChar, h', if_neg hc] at hsp
      have : l = c :: l' := by cases hsp; rfl
      subst this
      have := ih h'
      simpa [List.cons_prefix_cons] using this

theorem tail_line_newline_infix {sep : Char} :
    ∀ {s l line : List Char} {ls : List (List Char)},
      splitOnChar sep s = l :: ls → line ∈ ls → (sep :: line) <:+: s := by
  intro s
  induction s with
  | nil =>
    intro l line ls hsp hm
    have : ls = [] := by cases hsp; rfl
    subst this
    cases hm
  | cons c cs ih =>
    intro l line ls hsp hm
    obtain ⟨l', ls', h'⟩ := splitOnChar_cons_exists sep cs
    by_cases hc : c = sep
    · simp only [splitOnChar, h', if_pos hc] at hsp
      have hls : ls = l' :: ls' := by cases hsp; rfl
      subst hls hc
      rcases List.mem_cons.mp hm with rfl | hm'
      · exact ((List.cons_prefix_cons).mpr ⟨rfl, firstLinePref h'⟩).isInfix
      · exact List.infix_cons (ih h' hm')
    · simp only [splitOnChar, h', if_neg hc] at hsp
      have hls : ls = ls' := by cases hsp; rfl
      subst hls
      exact List.infix_cons (ih h' hm)

theorem infix_some_line {sep : Char} :
    ∀ {s M : List Char}, M <:+: s → (∀ ch ∈ M, ch ≠ sep) →
      ∃ l ∈ splitOnChar sep s, M <:+: l := by
  intro s
  induction s with
  | nil =>
    intro M hM _
    have : M = [] := by simpa using hM
    subst this
    exact ⟨[], by simp [splitOnChar], List.infix_rfl⟩
  | cons c cs ih =>
    intro M hM hch
    obtain ⟨l', ls', h'⟩ := splitOnChar_cons_exists sep cs
    rcases List.infix_cons_iff.mp hM with hpre | hinf
    · by_cases hc : c = sep
      · rcases List.prefix_cons_iff.mp hpre with rfl | ⟨t', rfl, _⟩
        · obtain ⟨l, ls, h⟩ := splitOnChar_cons_exists sep (c :: cs)
          exact ⟨l, by simp [h], List.nil_infix⟩
        · exact absurd hc (hch c (by simp))
      · simp only [splitOnChar, h', if_neg hc]
        rcases List.prefix_cons_iff.mp hpre with rfl | ⟨t', rfl, ht'⟩
        · exact ⟨c :: l', by simp, List.nil_infix⟩
        · have : t' <+: l' := prefix_first_line ht' (fun ch hm => hch ch (by simp [hm])) h'
          exact ⟨c :: l', by simp,
            ((List.cons_prefix_cons).mpr ⟨rfl, this⟩).isInfix⟩
    · obtain ⟨line, hmem, hline⟩ := ih hinf hch
      rw [h'] at hmem
      by_cases hc : c = sep
      · simp only [splitOnChar, h', if_pos hc]
        rcases List.mem_cons.mp hmem with rfl | hm'
        · exact ⟨line, by simp, hline⟩
        · exact ⟨line, by simp [hm'], hline⟩
      · simp only [splitOnChar, h', if_neg hc]
        rcases List.mem_cons.mp hmem with rfl | hm'
        · exact ⟨c :: line, by simp, List.infix_cons hline⟩
        · exact ⟨line, by simp [hm'], hline⟩

theorem sep_name_in_tail_line {sep : Char} :
    ∀ {s name : List Char}, (sep :: name) <:+: s → (∀ ch ∈ name, ch ≠ sep) →
      ∃ l ls line, splitOnChar sep s = l :: ls ∧ line ∈ ls ∧ name <+: line := by
  intro s
  induction s with
  | nil =>
    intro name hM _
    exact absurd (List.infix_nil.mp hM) (List.cons_ne_nil sep name)
  | cons c cs ih =>
    intro name hM hch
    obtain ⟨l', ls', h'⟩ := splitOnChar_cons_exists sep cs
    rcases List.infix_cons_iff.mp hM with hpre | hinf
    · obtain ⟨rfl, hname⟩ := (List.cons_prefix_cons).mp hpre
      simp only [splitOnChar, h', if_pos rfl]
      exact ⟨[], l' :: ls', l', rfl, by simp, prefix_first_line hname hch h'⟩
    · obtain ⟨l₀, ls₀, line, hsp₀, hmem₀, hpref₀⟩ := ih hinf hch
      by_cases hc : c = sep
      · simp only [splitOnChar, hsp₀, if_pos hc]
        exact ⟨[], l₀ :: ls₀, line, rfl, by simp [hmem₀], hpref₀⟩
      · simp only [splitOnChar, hsp₀, if_neg hc]
        exact ⟨c :: l₀, ls₀, line, rfl, hmem₀, hpref₀⟩

theorem mem_joinNLc {x : List Char} :
    ∀ {ls : List (List Char)}, x ∈ ls → x <:+: joinNLc ls := by
  intro ls
  induction ls with
  | nil => intro h; cases h
  | cons y rest ih =>
    intro h
    rcases List.mem_cons.mp h with rfl | hm
    · cases rest with
      | nil => exact List.infix_rfl
      | cons z r' => exact infix_left_lift List.infix_rfl
    · cases rest with
      | nil => cases hm
      | cons z r' =>
        have h1 : x <:+: '\n' :: joinNLc (z :: r') := List.infix_cons (ih hm)
        exact infix_right_lift h1

theorem newline_mem_joinNLc {x : List Char} :
    ∀ {ls : List (List Char)}, x ∈ ls → ('\n' :: x) <:+: '\n' :: joinNLc ls := by
  intro ls
  induction ls with
  | nil => intro h; cases h
  | cons y rest ih =>
    intro h
    rcases List.mem_cons.mp h with rfl | hm
    · cases rest with
      | nil => exact List.infix_rfl
      | cons z r' =>
        refine List.IsPrefix.isInfix ?_
        refine (List.cons_prefix_cons).mpr ⟨rfl, List.prefix_append x _⟩
    · cases rest with
      | nil => cases hm
      | cons z r' =>
        have h1 : ('\n' :: x) <:+: '\n' :: joinNLc (z :: r') := ih hm
        have h2 : ('\n' :: joinNLc (z :: r')) <:+ y ++ '\n' :: joinNLc (z :: r') :=
          List.suffix_append y _
        exact List.infix_cons (h1.trans h2.isInfix)

theorem pyInsert_mem {α : Type} {x a : α} :
    ∀ {l : List α} (n : Nat), x ∈ l → x ∈ pyInsert n a l := by
  intro l
  induction l with
  | nil => intro n h; cases h
  | cons y ys ih =>
    intro n h
    cases n with
    | zero => exact List.mem_cons_of_mem a h
    | succ m =>
      rcases List.mem_cons.mp h with rfl | hm
      · exact List.mem_cons_self x _
      · exact List.mem_cons_of_mem y (ih m hm)

theorem pyInsert_self {α : Type} (a : α) :
    ∀ (n : Nat) (l : List α), a ∈ pyInsert n a l := by
  intro n
  induction n with
  | zero => intro l; exact List.mem_cons_self a l
  | succ m ih =>
    intro l
    cases l with
    | nil => exact List.mem_singleton_self a
    | cons y ys => exact List.mem_cons_of_mem y (ih ys)

theorem joinNL_data : ∀ ls : List String, (joinNL ls).data = joinNLc (ls.map String.data) := by
  intro ls
  induction ls with
  | nil => rfl
  | cons x rest ih =>
    cases rest with
    | nil => rfl
    | cons y r' =>
      show (x ++ "\n" ++ joinNL (y :: r')).data = x.data ++ '\n' :: joinNLc ((y :: r').map String.data)
      rw [String.data_append, String.data_append, ih]
      simp

theorem pyStartsWith_iff {s pre : String} : pyStartsWith s pre = true ↔ pre.data <+: s.data := by
  rw [pyStartsWith]
  exact List.isPrefixOf_iff_prefix

theorem pyEndsWith_iff {s suf : String} : pyEndsWith s suf = true ↔ suf.data <:+ s.data := by
  rw [pyEndsWith]
  exact List.isSuffixOf_iff_suffix

theorem pyEndsWith_nl_of_last {s : String} {t : List Char}
    (hrev : s.data.reverse = '\n' :: t) : pyEndsWith s "\n" = true := by
  rw [pyEndsWith_iff, ← List.reverse_prefix, hrev]
  show List.reverse ['\n'] <+: '\n' :: t
  exact List.prefix_cons_iff.mpr (Or.inr ⟨[], rfl, List.nil_prefix⟩)

theorem pyEndsWith_nl_false_of_last {s : String} {c₀ : Char} {t : List Char}
    (hrev : s.data.reverse = c₀ :: t) (hc : c₀ ≠ '\n') : pyEndsWith s "\n" = false := by
  rw [Bool.eq_false_iff]
  intro h
  have h2 : ("\n" : String).data <:+ s.data := pyEndsWith_iff.mp h
  rw [← List.reverse_prefix, hrev] at h2
  have h3 : (['\n'] : List Char) <+: c₀ :: t := h2
  rcases List.prefix_cons_iff.mp h3 with he | ⟨t', he, _⟩
  · cases he
  · have : '\n' = c₀ := by cases he; rfl
    exact hc this.symm

/-! ### Character-level lemmas for name normalization -/

theorem char_le_iff {a b : Char} : a ≤ b ↔ a.toNat ≤ b.toNat := by
  rw [Char.le_def, UInt32.le_def, BitVec.le_def]
  exact Iff.rfl

theorem toNat_ofNat_valid {n : Nat} (h : n.isValidChar) : (Char.ofNat n).toNat = n := by
  rw [Char.ofNat, dif_pos h]
  rfl

theorem pyLowerChar_toNat {c : Char} (h : 'A' ≤ c ∧ c ≤ 'Z') :
    (pyLowerChar c).toNat = c.toNat + 32 := by
  rw [pyLowerChar, if_pos h]
  have hub : c.toNat ≤ 90 := by
    have h2 := char_le_iff.mp h.2
    have : ('Z' : Char).toNat = 90 := by decide
    omega
  exact toNat_ofNat_valid (Or.inl (by omega))

theorem pyLowerChar_ne_of_ne {c : Char} (h1 : c ≠ ' ') (h2 : c ≠ '_') :
    pyLowerChar c ≠ ' ' ∧ pyLowerChar c ≠ '_' := by
  by_cases h : 'A' ≤ c ∧ c ≤ 'Z'
  · have hlb : 65 ≤ c.toNat := by
      have h3 := char_le_iff.mp h.1
      have : ('A' : Char).toNat = 65 := by decide
      omega
    have ht := pyLowerChar_toNat h
    constructor
    · intro he
      have : (pyLowerChar c).toNat = 32 := by rw [he]; decide
      omega
    · intro he
      have : (pyLowerChar c).toNat = 95 := by rw [he]; decide
      omega
  · rw [pyLowerChar, if_neg h]
    exact ⟨h1, h2⟩

theorem replace_compose_eq_spec (c : Char) :
    replaceChar ' ' '-' (replaceChar '_' '-' (pyLowerChar c)) = specCharNormalize c := by
  by_cases h1 : c = ' '
  · subst h1; decide
  · by_cases h2 : c = '_'
    · subst h2; decide
    · obtain ⟨d1, d2⟩ := pyLowerChar_ne_of_ne h1 h2
      rw [specCharNormalize, if_neg (by tauto)]
      simp [replaceChar, d1, d2]

theorem specCollapse_head (d : Char) (r : List Char) :
    (specCollapse (d :: r)).head? = some d := by
  show (if d = '-' ∧ (specCollapse r).head? = some '-' then specCollapse r
    else d :: specCollapse r).head? = some d
  by_cases h : d = '-' ∧ (specCollapse r).head? = some '-'
  · rw [if_pos h, h.2, h.1]
  · rw [if_neg h]
    rfl

theorem collapse_eq_spec : ∀ l : List Char, collapseHyphens l = specCollapse l := by
  intro l
  induction l with
  | nil => rfl
  | cons c tail ih =>
    cases tail with
    | nil =>
      have h : specCollapse [c] = [c] := by
        show (if c = '-' ∧ (specCollapse ([] : List Char)).head? = some '-' then
          specCollapse ([] : List Char) else c :: specCollapse ([] : List Char)) = [c]
        rw [if_neg (by simp [specCollapse])]
        rfl
      rw [h]
      rfl
    | cons d rest =>
      show collapseHyphens (c :: d :: rest) = specCollapse (c :: d :: rest)
      have hspec : specCollapse (c :: d :: rest) =
          if c = '-' ∧ (specCollapse (d :: rest)).head? = some '-' then specCollapse (d :: rest)
          else c :: specCollapse (d :: rest) := rfl
      rw [collapseHyphens, hspec, specCollapse_head]
      by_cases h : c = '-' ∧ d = '-'
      · rw [if_pos h, if_pos (by simp [h.1, h.2]), ih]
      · rw [if_neg h, if_neg (by simpa using h), ih]

/-! ### Claim theorems -/

/-- C6: `validate_name` returns its input lowercased with spaces and
underscores turned into hyphens, characters outside `[a-z0-9-]`
stripped, hyphen runs collapsed, leading/trailing hyphens trimmed, and
falls back to `"my-tool"` when the result is empty; in particular
`"My Tool_Name!!"` maps to `"my-tool-name"`. -/
theorem c6_name_normalization :
    (∀ name : String, validateName name = specNormalize name) ∧
    validateName "My Tool_Name!!" = "my-tool-name" ∧
    validateName "" = "my-tool" := by
  refine ⟨?_, rfl, rfl⟩
  intro name
  simp only [validateName, specNormalize]
  have hmap : ((name.data.map pyLowerChar).map (replaceChar '_' '-')).map (replaceChar ' ' '-')
      = name.data.map specCharNormalize := by
    rw [List.map_map, List.map_map]
    refine List.map_congr_left ?_
    intro x _
    exact replace_compose_eq_spec x
  rw [hmap, collapse_eq_spec]

/-- C10: when `.editorconfig` already exists, `ensure_editorconfig`
returns false and leaves the content untouched whatever it is — no
marker scan or merge happens for this artifact. -/
theorem c10_editorconfig_existing_untouched :
    ∀ (txt : String) (dry : Bool), ensureEditorconfig (some txt) dry = (some txt, false) :=
  fun _ _ => rfl

/-- C9: tool resolution order of `get_tool_command` — with a venv
handle, the binary alongside the handle when it exists; otherwise the
handle's interpreter with `-m` and the tool name's hyphens converted to
underscores; without a handle, the bare tool name. -/
theorem c9_tool_resolution (vp tool : String) (binExists : String → Bool) :
    (binExists tool = true →
      getToolCommand (some vp) tool binExists = [pathParentJoin vp tool]) ∧
    (binExists tool = false →
      getToolCommand (some vp) tool binExists = [vp, "-m", hyphenToUnderscore tool]) ∧
    getToolCommand none tool binExists = [tool] := by
  refine ⟨fun h => ?_, fun h => ?_, rfl⟩
  · rw [getToolCommand, if_pos h]
  · rw [getToolCommand, if_neg (by rw [h]; exact Bool.false_ne_true)]

/-- Witness for C9 at a concrete venv and the hyphenated tool
`pre-commit`. -/
theorem c9_tool_resolution_witness :
    getToolCommand (some ".venv/bin/python") "pre-commit" (fun _ => false) =
      [".venv/bin/python", "-m", "pre_commit"] := by
  have h := (c9_tool_resolution ".venv/bin/python" "pre-commit" (fun _ => false)).2.1 rfl
  exact h.trans (by rfl)

theorem lineStartHit_iff {name txt : String} (hn : ∀ ch ∈ name.data, ch ≠ '\n') :
    lineStartHit name txt = true ↔ linePresentSpec name txt := by
  constructor
  · intro h
    rcases Bool.or_eq_true _ _ |>.mp h with h1 | h2
    · have hpre : name.data <+: txt.data := pyStartsWith_iff.mp h1
      obtain ⟨l, ls, hsp⟩ := splitOnChar_cons_exists '\n' txt.data
      refine ⟨String.mk l, List.mem_map.mpr ⟨l, by rw [hsp]; simp, rfl⟩, ?_⟩
      exact pyStartsWith_iff.mpr (prefix_first_line hpre hn hsp)
    · have hocc : ('\n' :: name.data) <:+: txt.data := by
        have := pyIn_iff.mp h2
        simpa using this
      obtain ⟨l, ls, line, hsp, hmem, hpre⟩ := sep_name_in_tail_line hocc hn
      refine ⟨String.mk line, List.mem_map.mpr ⟨line, by rw [hsp]; simp [hmem], rfl⟩, ?_⟩
      exact pyStartsWith_iff.mpr hpre
  · rintro ⟨l', hmem, hpre⟩
    obtain ⟨lc, hlcmem, rfl⟩ := List.mem_map.mp hmem
    have hpre' : name.data <+: lc := pyStartsWith_iff.mp hpre
    obtain ⟨l₀, ls, hsp⟩ := splitOnChar_cons_exists '\n' txt.data
    rw [hsp] at hlcmem
    rcases List.mem_cons.mp hlcmem with rfl | htail
    · have : name.data <+: txt.data := hpre'.trans (firstLinePref hsp)
      exact Bool.or_eq_true _ _ |>.mpr (Or.inl (pyStartsWith_iff.mpr this))
    · have h1 : ('\n' :: lc) <:+: txt.data := tail_line_newline_infix hsp htail
      have h2 : ('\n' :: name.data) <+: ('\n' :: lc) :=
        (List.cons_prefix_cons).mpr ⟨rfl, hpre'⟩
      refine Bool.or_eq_true _ _ |>.mpr (Or.inr (pyIn_iff.mpr ?_))
      have := h2.isInfix.trans h1
      simpa using this

/-- C7: a wanted dependency counts as present exactly when some line of
the manifest starts with its package name (whatever the version pin);
present dependencies are never in the appended `missing` list; and a
manifest pinning `ruff==0.5.0` gains only the other two lines, with no
duplicate `ruff` entry. -/
theorem c7_requirements_merge :
    (∀ name txt : String, (∀ ch ∈ name.data, ch ≠ '\n') →
      (lineStartHit name txt = true ↔ linePresentSpec name txt)) ∧
    (∀ (txt : String) (ro : Bool) (w : String), w ∈ reqWant ro →
      linePresentSpec (pkgOf w) txt →
      w ∉ (reqWant ro).filter (fun w' => lineStartHit (pkgOf w') txt = false)) ∧
    ensureRequirementsDev (some "ruff==0.5.0\n") false false =
      (some "# Development dependencies\nruff==0.5.0\npre-commit>=3.0.0\nblack>=24.10.0\n",
        true) := by
  refine ⟨fun name txt hn => lineStartHit_iff hn, ?_, rfl⟩
  intro txt ro w hw hpresent
  have hn : ∀ ch ∈ (pkgOf w).data, ch ≠ '\n' := by
    cases ro <;> simp [reqWant] at hw <;> rcases hw with rfl | rfl | rfl <;> decide
  have hhit : lineStartHit (pkgOf w) txt = true := (lineStartHit_iff hn).mpr hpresent
  intro hmem
  have := List.of_mem_filter hmem
  simp [hhit] at this

/-- Witness for C7 on the pinned-manifest example: the `ruff`
requirement is satisfied by `ruff==0.5.0` and not re-appended. -/
theorem c7_requirements_merge_witness :
    "ruff>=0.6.9" ∉ (reqWant false).filter
      (fun w' => lineStartHit (pkgOf w') "ruff==0.5.0\n" = false) := by
  refine c7_requirements_merge.2.1 "ruff==0.5.0\n" false "ruff>=0.6.9" (by decide) ?_
  refine ⟨"ruff==0.5.0", ?_, by decide⟩
  decide

theorem not_infix_cons_of {p : List Char} {c : Char} {l : List Char}
    (hp : ∀ ch ∈ p, ch ≠ c) (hnil : p ≠ []) (h : ¬ p <:+: l) : ¬ p <:+: c :: l := by
  intro hcon
  rcases List.infix_cons_iff.mp hcon with hpre | hinf
  · rcases List.prefix_cons_iff.mp hpre with rfl | ⟨t', rfl, _⟩
    · exact hnil rfl
    · exact hp c (by simp) rfl
  · exact h hinf

theorem reverse_append_last {x y : List Char} {c₀ : Char} {t : List Char}
    (h : y.reverse = c₀ :: t) : (x ++ y).reverse = c₀ :: (t ++ x.reverse) := by
  rw [List.reverse_append, h]
  rfl

theorem rstrip_append_right {x y : List Char} (h : rstripChars y ≠ []) :
    rstripChars (x ++ y) = x ++ rstripChars y := by
  rw [rstripChars, List.reverse_append, List.dropWhile_append]
  have hne : (y.reverse.dropWhile isPyWS).isEmpty = false := by
    rw [rstripChars] at h
    rcases he : y.reverse.dropWhile isPyWS with _ | ⟨a, b⟩
    · exact absurd (by rw [he]; rfl) h
    · rfl
  rw [if_neg (by simp [hne]), List.reverse_append, List.reverse_reverse, rstripChars]

theorem exists_cons_of_head? {l : List Char} {c : Char} (h : l.head? = some c) :
    ∃ t, l = c :: t := by
  cases l with
  | nil => cases h
  | cons a t =>
    have : a = c := by cases h; rfl
    exact ⟨t, by rw [this]⟩

theorem strAppend_assoc (a b c : String) : a ++ b ++ c = a ++ (b ++ c) := by
  refine strEq ?_
  simp [List.append_assoc]

theorem str_ne_empty_of_rev {txt : String} {c₀ : Char} {t : List Char}
    (hrev : txt.data.reverse = c₀ :: t) : ¬ txt = "" := by
  intro h
  subst h
  cases hrev

/-- C3 counterexample: an existing pre-commit config whose last line
carries trailing whitespace (`"custom: yes  \n"`, no recognized
markers): the merge reports a change but the pre-existing line
`"custom: yes  "` is no longer in the file byte-for-byte — the merge
rstrips the existing text before appending the Black block (and the
Ruff block is prepended, not appended). -/
theorem c3_counterexample :
    (ensurePrecommit (some "custom: yes  \n") false false).2 = true ∧
    ((ensurePrecommit (some "custom: yes  \n") false false).1.map
      (fun s => pyIn "custom: yes  " s)) = some false := by
  exact ⟨rfl, rfl⟩

/-- C3 amended: for an existing config file with none of the recognized
markers whose text does not end in whitespace, `ensure_precommit` puts
the Ruff hook block above the existing text (prepended, not appended)
and the Black block below it, and `ensure_pyproject` (at the default
tool version) appends its two blocks below — the pre-existing text
surviving byte-for-byte as a contiguous run.  (With trailing
whitespace, that whitespace is trimmed before the append.) -/
theorem c3_amended_merge_safety (txt : String) (c₀ : Char) (t : List Char) (ro : Bool)
    (hrev : txt.data.reverse = c₀ :: t) (hws : isPyWS c₀ = false)
    (h1 : pyIn "ruff-pre-commit" txt = false)
    (h2 : pyIn "psf/black" txt = false)
    (h3 : pyIn "[tool.ruff]" txt = false)
    (h4 : pyIn "[tool.black]" txt = false) :
    ensurePrecommit (some txt) ro false =
      (some (if ro then PRECOMMIT_RUFF ++ "\n" ++ txt
        else PRECOMMIT_RUFF ++ "\n" ++ txt ++ "\n" ++ PRECOMMIT_BLACK), true) ∧
    ensurePyproject (some txt) false "3.11" false none none none none =
      (some (txt ++ "\n\n" ++ pyRstrip (ruffBlockFor "3.11") ++ "\n" ++ blackBlockFor "3.11"),
        true) := by
  have htxtne : ¬ txt = "" := str_ne_empty_of_rev hrev
  have hc0 : c₀ ≠ '\n' := by
    intro h
    subst h
    simp [isPyWS] at hws
  constructor
  · have hpb : pyIn "psf/black" (PRECOMMIT_RUFF ++ ("\n" ++ txt)) = false := by
      rw [pyIn_false_iff]
      intro hcon
      have hdata : (PRECOMMIT_RUFF ++ ("\n" ++ txt)).data
          = PRECOMMIT_RUFF.data ++ '\n' :: txt.data := by simp
      rw [hdata] at hcon
      rcases infix_append_no_boundary hcon (by decide) ⟨txt.data, rfl⟩ with hl | hr
      · exact absurd hl (by decide)
      · exact not_infix_cons_of (by decide) (by decide) (pyIn_false_iff.mp h2) hr
    have hrs : pyRstrip (PRECOMMIT_RUFF ++ ("\n" ++ txt)) = PRECOMMIT_RUFF ++ ("\n" ++ txt) := by
      refine strEq ?_
      show rstripChars (PRECOMMIT_RUFF ++ ("\n" ++ txt)).data
          = (PRECOMMIT_RUFF ++ ("\n" ++ txt)).data
      have hdata : (PRECOMMIT_RUFF ++ ("\n" ++ txt)).data
          = (PRECOMMIT_RUFF ++ "\n").data ++ txt.data := by simp
      rw [hdata]
      exact rstrip_eq_self (reverse_append_last hrev) hws
    cases ro with
    | true => simp [ensurePrecommit, precommitStep, h1, if_neg htxtne, strAppend_assoc]
    | false => simp [ensurePrecommit, precommitStep, h1, if_neg htxtne, hpb, hrs, strAppend_assoc]
  · have hrendHead : (ruffBlockFor "3.11").data.reverse.head? = some '\n' := by decide
    obtain ⟨tr, hrendRuff⟩ := exists_cons_of_head? hrendHead
    have hruffRstrip : rstripChars (ruffBlockFor "3.11").data ≠ [] := by decide
    have hEndTxt : pyEndsWith txt "\n" = false := pyEndsWith_nl_false_of_last hrev hc0
    have hrsTxt : pyRstrip txt = txt := strEq (rstrip_eq_self hrev hws)
    have hblack : pyIn "[tool.black]" (txt ++ ("\n\n" ++ ruffBlockFor "3.11")) = false := by
      rw [pyIn_false_iff]
      intro hcon
      have hdata : (txt ++ ("\n\n" ++ ruffBlockFor "3.11")).data
          = txt.data ++ '\n' :: '\n' :: (ruffBlockFor "3.11").data := by simp
      rw [hdata] at hcon
      rcases infix_append_no_boundary hcon (by decide) ⟨_, rfl⟩ with hl | hr
      · exact pyIn_false_iff.mp h4 hl
      · refine not_infix_cons_of (by decide) (by decide) ?_ hr
        exact not_infix_cons_of (by decide) (by decide) (by decide)
    have hEnd2 : pyEndsWith (txt ++ ("\n\n" ++ ruffBlockFor "3.11")) "\n" = true := by
      refine pyEndsWith_nl_of_last (t := tr ++ ((txt ++ "\n\n").data).reverse) ?_
      have hdata : (txt ++ ("\n\n" ++ ruffBlockFor "3.11")).data
          = (txt ++ "\n\n").data ++ (ruffBlockFor "3.11").data := by simp
      rw [hdata]
      exact reverse_append_last hrendRuff
    have hrs2 : pyRstrip (txt ++ ("\n\n" ++ ruffBlockFor "3.11"))
        = txt ++ ("\n\n" ++ pyRstrip (ruffBlockFor "3.11")) := by
      refine strEq ?_
      show rstripChars (txt ++ ("\n\n" ++ ruffBlockFor "3.11")).data
          = (txt ++ ("\n\n" ++ pyRstrip (ruffBlockFor "3.11"))).data
      have hdata : (txt ++ ("\n\n" ++ ruffBlockFor "3.11")).data
          = (txt ++ "\n\n").data ++ (ruffBlockFor "3.11").data := by simp
      rw [hdata, rstrip_append_right hruffRstrip]
      simp [pyRstrip]
    simp [ensurePyproject, pyprojStep1, pyprojBlocks, h3, hEndTxt, hrsTxt, hblack, hEnd2, hrs2,
      strAppend_assoc]

/-- Witness for the amended C3 on a concrete marker-free config. -/
theorem c3_amended_merge_safety_witness :
    ensurePrecommit (some "custom: yes") false false =
      (some (if false then PRECOMMIT_RUFF ++ "\n" ++ "custom: yes"
        else PRECOMMIT_RUFF ++ "\n" ++ "custom: yes" ++ "\n" ++ PRECOMMIT_BLACK), true) :=
  (c3_amended_merge_safety "custom: yes" 's' "ey :motsuc".data false (by decide) (by decide)
    (by decide) (by decide) (by decide) (by decide)).1

theorem replChars_no_occ {p r : List Char} {s : List Char} (h : splitFirst p s = none) :
    ∀ fuel, replChars p r fuel s = s := by
  intro fuel
  cases fuel with
  | zero => rfl
  | succ k => rw [replChars, h]

/-- C4 counterexample: a workflow containing both baseline markers, no
Black check step, no `pip install black`, but the dependency-install
line `pip install ruff` twice.  The run (without the formatter-only
flag) amends the install line twice, not exactly once. -/
theorem c4_counterexample :
    (ensureCI (some "ruff format --check\nruff check\npip install ruff\npip install ruff\n")
      false "3.11" false).2 = true ∧
    ((ensureCI (some "ruff format --check\nruff check\npip install ruff\npip install ruff\n")
      false "3.11" false).1.map (fun s => pyCount "pip install black" s)) = some 2 := by
  exact ⟨rfl, rfl⟩

/-- C4 amended: when the existing workflow carries both baseline
markers, lacks the Black check step and `pip install black`, and the
dependency-install line `pip install ruff` occurs exactly once, the run
without the formatter-only flag splices the Black install line into
that single spot and appends exactly one Black check step, leaving all
other text untouched. -/
theorem c4_amended_ci_merge (txt pyver : String)
    (hm1 : pyIn "ruff format --check" txt = true)
    (hm2 : pyIn "ruff check" txt = true)
    (hbc : pyIn "black --check" txt = false)
    (hpb : pyIn "pip install black" txt = false)
    (hcount : pyCount "pip install ruff" txt = 1) :
    ∃ (a b nl : List Char),
      txt.data = a ++ ("pip install ruff").data ++ b ∧
      (nl = [] ∨ nl = ['\n']) ∧
      (ensureCI (some txt) false pyver false).2 = true ∧
      (ensureCI (some txt) false pyver false).1.map String.data =
        some (a ++ ("pip install ruff\n        pip install black").data ++ b
          ++ nl ++ '\n' :: BLACK_CHECK_STEP.data) := by
  rw [pyCount] at hcount
  rcases hsf : splitFirst ("pip install ruff").data txt.data with _ | ⟨a, b⟩
  · rw [countOcc, hsf] at hcount
    cases hcount
  · have hdecomp : txt.data = a ++ ("pip install ruff").data ++ b := splitFirst_some_eq hsf
    rw [countOcc, hsf] at hcount
    have h1 : 1 + countOcc ("pip install ruff").data txt.data.length b = 1 := hcount
    have h0 : countOcc ("pip install ruff").data txt.data.length b = 0 := by omega
    have hlenpos : txt.data.length ≠ 0 := by
      rw [hdecomp]
      simp
    obtain ⟨k, hfl⟩ := Nat.exists_eq_succ_of_ne_zero hlenpos
    have hone : splitFirst ("pip install ruff").data b = none := by
      rw [hfl, countOcc] at h0
      rcases hb : splitFirst ("pip install ruff").data b with _ | ⟨a2, b2⟩
      · rfl
      · rw [hb] at h0
        have h2 : 1 + countOcc ("pip install ruff").data k b2 = 0 := h0
        omega
    have hPin : pyIn "pip install ruff" txt = true := by
      rw [pyIn, occursB, hsf]
      rfl
    have hrepl : (pyReplace txt "pip install ruff"
        ("pip install ruff" ++ BLACK_DEP_STEP)).data =
        a ++ ("pip install ruff" ++ BLACK_DEP_STEP).data ++ b := by
      show replChars _ _ (txt.data.length + 1) txt.data = _
      rw [replChars, hsf]
      show a ++ ("pip install ruff" ++ BLACK_DEP_STEP).data ++
        replChars ("pip install ruff").data ("pip install ruff" ++ BLACK_DEP_STEP).data
          txt.data.length b = _
      rw [replChars_no_occ hone]
    by_cases hend : pyEndsWith (pyReplace txt "pip install ruff"
        ("pip install ruff" ++ BLACK_DEP_STEP)) "\n" = true
    · refine ⟨a, b, [], hdecomp, Or.inl rfl, ?_, ?_⟩
      · simp [ensureCI, ciStep, hm1, hm2, hbc, hpb, hPin]
      · simp only [ensureCI, ciStep, hm1, hm2, hbc, hpb, hPin]
        simp [BLACK_DEP_STEP] at hend hrepl
        simp [hend, hrepl, BLACK_DEP_STEP]
    · refine ⟨a, b, ['\n'], hdecomp, Or.inr rfl, ?_, ?_⟩
      · simp [ensureCI, ciStep, hm1, hm2, hbc, hpb, hPin]
      · simp only [ensureCI, ciStep, hm1, hm2, hbc, hpb, hPin]
        simp [BLACK_DEP_STEP] at hend hrepl
        simp [hend, hrepl, BLACK_DEP_STEP]

/-- Witness for the amended C4 on a concrete minimal workflow. -/
theorem c4_amended_ci_merge_witness :
    ∃ (a b nl : List Char),
      ("ruff format --check\nruff check\npip install ruff\n" : String).data
        = a ++ ("pip install ruff").data ++ b ∧
      (nl = [] ∨ nl = ['\n']) ∧
      (ensureCI (some "ruff format --check\nruff check\npip install ruff\n")
        false "3.11" false).2 = true ∧
      (ensureCI (some "ruff format --check\nruff check\npip install ruff\n")
        false "3.11" false).1.map String.data =
        some (a ++ ("pip install ruff\n        pip install black").data ++ b
          ++ nl ++ '\n' :: BLACK_CHECK_STEP.data) :=
  c4_amended_ci_merge "ruff format --check\nruff check\npip install ruff\n" "3.11"
    rfl rfl rfl rfl rfl

theorem marker_avoids_tail {M x P : List Char} (h : M <:+: x ++ P)
    (hMP : ¬ M <:+: P)
    (hinits : ∀ m₂ ∈ P.inits, m₂ = [] ∨ ¬ m₂ <:+ M) : M <:+: x := by
  rcases infix_append_cases h with h1 | h1 | ⟨m₁, m₂, rfl, _, hn2, _, hp⟩
  · exact h1
  · exact absurd h1 hMP
  · exfalso
    rcases hinits m₂ ((List.mem_inits _ _).mpr hp) with rfl | hns
    · exact hn2 rfl
    · exact hns (List.suffix_append m₁ m₂)

theorem marker_survives_replace_disjoint {M p r : List Char}
    (hPM : ¬ p <:+: M) (hMP : ¬ M <:+: p)
    (htails : ∀ m₁ ∈ p.tails, m₁ = [] ∨ ¬ m₁ <+: M)
    (hinits : ∀ m₂ ∈ p.inits, m₂ = [] ∨ ¬ m₂ <:+ M) :
    ∀ (fuel : Nat) (s : List Char), M <:+: s → M <:+: replChars p r fuel s := by
  intro fuel
  induction fuel with
  | zero => intro s hM; simpa [replChars] using hM
  | succ fuel ih =>
    intro s hM
    cases hsf : splitFirst p s with
    | none => simpa [replChars, hsf] using hM
    | some ab =>
      obtain ⟨a, b⟩ := ab
      have hs : s = a ++ p ++ b := splitFirst_some_eq hsf
      subst hs
      rw [replChars]
      simp only [hsf]
      have hstep : M <:+: a ++ p ∨ M <:+: b := by
        refine marker_survives_step hM hPM ?_
        intro m₁ w1 w2 w3
        rcases htails m₁ ((List.mem_tails _ _).mpr w1) with rfl | hnp
        · exact absurd rfl w2
        · exact absurd w3 hnp
      rcases hstep with h1 | h1
      · have h2 : M <:+: a := marker_avoids_tail h1 hMP hinits
        exact infix_left_lift (infix_left_lift h2)
      · exact infix_right_lift (ih b h1)

/-- `"[tool.ruff]"` occurs in the Ruff block whatever the version
string substituted for `"py311"` (the marker shares no overlap with the
replaced pattern). -/
theorem ruffBlockFor_marker (pyver : String) : pyIn "[tool.ruff]" (ruffBlockFor pyver) = true := by
  rw [pyIn_iff]
  show ("[tool.ruff]").data <:+: replChars _ _ _ _
  refine marker_survives_replace_disjoint (by decide) (by decide) (by decide) (by decide) _ _ ?_
  decide

/-- `"[tool.black]"` occurs in the Black block whatever the version
string substituted. -/
theorem blackBlockFor_marker (pyver : String) :
    pyIn "[tool.black]" (blackBlockFor pyver) = true := by
  rw [pyIn_iff]
  show ("[tool.black]").data <:+: replChars _ _ _ _
  refine marker_survives_replace_disjoint (by decide) (by decide) (by decide) (by decide) _ _ ?_
  decide

theorem pyIn_append_left {pat x y : String} (h : pyIn pat x = true) :
    pyIn pat (x ++ y) = true := by
  rw [pyIn_iff] at h ⊢
  rw [String.data_append]
  exact infix_left_lift h

theorem pyIn_append_right {pat x y : String} (h : pyIn pat y = true) :
    pyIn pat (x ++ y) = true := by
  rw [pyIn_iff] at h ⊢
  rw [String.data_append]
  exact infix_right_lift h

theorem pyIn_rstrip {pat s : String}
    (hlast : pat.data.reverse.head?.any (fun c => !isPyWS c) = true)
    (h : pyIn pat s = true) : pyIn pat (pyRstrip s) = true := by
  rw [pyIn_iff] at h ⊢
  rcases hrev : pat.data.reverse with _ | ⟨c₀, t⟩
  · rw [hrev] at hlast
    cases hlast
  · rw [hrev] at hlast
    have hws : isPyWS c₀ = false := by
      simp [Option.any] at hlast
      exact hlast
    exact rstrip_preserves_infix hrev hws h

theorem idem_editorconfig (c : Option String) :
    ensureEditorconfig (ensureEditorconfig c false).1 false
      = ((ensureEditorconfig c false).1, false) := by
  cases c <;> rfl

theorem idem_precommit (c : Option String) (ro : Bool) :
    ensurePrecommit (ensurePrecommit c ro false).1 ro false
      = ((ensurePrecommit c ro false).1, false) := by
  cases c with
  | none => cases ro <;> rfl
  | some txt =>
    by_cases hA : pyIn "ruff-pre-commit" txt = true
    · cases ro with
      | true =>
        have hfirst : ensurePrecommit (some txt) true false = (some txt, false) := by
          simp [ensurePrecommit, precommitStep, hA]
        rw [hfirst]
        exact hfirst
      | false =>
        by_cases hB : pyIn "psf/black" txt = true
        · have hfirst : ensurePrecommit (some txt) false false = (some txt, false) := by
            simp [ensurePrecommit, precommitStep, hA, hB]
          rw [hfirst]
          exact hfirst
        · have hB' : pyIn "psf/black" txt = false := by
            simpa using hB
          have hfirst : ensurePrecommit (some txt) false false
              = (some (pyRstrip txt ++ "\n" ++ PRECOMMIT_BLACK), true) := by
            simp [ensurePrecommit, precommitStep, hA, hB']
          have hm1 : pyIn "ruff-pre-commit" (pyRstrip txt ++ "\n" ++ PRECOMMIT_BLACK) = true :=
            pyIn_append_left (pyIn_append_left (pyIn_rstrip (by decide) hA))
          have hm2 : pyIn "psf/black" (pyRstrip txt ++ "\n" ++ PRECOMMIT_BLACK) = true :=
            pyIn_append_right (by rfl)
          have hsecond : ensurePrecommit (some (pyRstrip txt ++ "\n" ++ PRECOMMIT_BLACK))
              false false = (some (pyRstrip txt ++ "\n" ++ PRECOMMIT_BLACK), false) := by
            simp [ensurePrecommit, precommitStep, hm1, hm2]
          rw [hfirst]
          exact hsecond
    · have hA' : pyIn "ruff-pre-commit" txt = false := by
        simpa using hA
      by_cases hE : txt = ""
      · subst hE
        cases ro <;> rfl
      · have hm1' : pyIn "ruff-pre-commit" (PRECOMMIT_RUFF ++ ("\n" ++ txt)) = true :=
          pyIn_append_left (by rfl)
        cases ro with
        | true =>
          have hfirst : ensurePrecommit (some txt) true false
              = (some (PRECOMMIT_RUFF ++ ("\n" ++ txt)), true) := by
            simp [ensurePrecommit, precommitStep, hA', hE]
          have hsecond : ensurePrecommit (some (PRECOMMIT_RUFF ++ ("\n" ++ txt))) true false
              = (some (PRECOMMIT_RUFF ++ ("\n" ++ txt)), false) := by
            simp [ensurePrecommit, precommitStep, hm1']
          rw [hfirst]
          exact hsecond
        | false =>
          by_cases hB2 : pyIn "psf/black" (PRECOMMIT_RUFF ++ ("\n" ++ txt)) = true
          · have hfirst : ensurePrecommit (some txt) false false
                = (some (PRECOMMIT_RUFF ++ ("\n" ++ txt)), true) := by
              simp [ensurePrecommit, precommitStep, hA', hE, hB2]
            have hsecond : ensurePrecommit (some (PRECOMMIT_RUFF ++ ("\n" ++ txt))) false false
                = (some (PRECOMMIT_RUFF ++ ("\n" ++ txt)), false) := by
              simp [ensurePrecommit, precommitStep, hm1', hB2]
            rw [hfirst]
            exact hsecond
          · have hB2' : pyIn "psf/black" (PRECOMMIT_RUFF ++ ("\n" ++ txt)) = false := by
              simpa using hB2
            have hfirst : ensurePrecommit (some txt) false false
                = (some (pyRstrip (PRECOMMIT_RUFF ++ ("\n" ++ txt)) ++ "\n" ++ PRECOMMIT_BLACK),
                  true) := by
              simp [ensurePrecommit, precommitStep, hA', hE, hB2']
            have hm1'' : pyIn "ruff-pre-commit"
                (pyRstrip (PRECOMMIT_RUFF ++ ("\n" ++ txt)) ++ "\n" ++ PRECOMMIT_BLACK) = true :=
              pyIn_append_left (pyIn_append_left (pyIn_rstrip (by decide) hm1'))
            have hm2'' : pyIn "psf/black"
                (pyRstrip (PRECOMMIT_RUFF ++ ("\n" ++ txt)) ++ "\n" ++ PRECOMMIT_BLACK) = true :=
              pyIn_append_right (by rfl)
            have hsecond : ensurePrecommit
                (some (pyRstrip (PRECOMMIT_RUFF ++ ("\n" ++ txt)) ++ "\n" ++ PRECOMMIT_BLACK))
                false false
                = (some (pyRstrip (PRECOMMIT_RUFF ++ ("\n" ++ txt)) ++ "\n" ++ PRECOMMIT_BLACK),
                  false) := by
              simp [ensurePrecommit, precommitStep, hm1'', hm2'']
            rw [hfirst]
            exact hsecond

theorem pyStartsWith_append {x y pre : String} (h : pyStartsWith x pre = true) :
    pyStartsWith (x ++ y) pre = true := by
  rw [pyStartsWith_iff] at h ⊢
  rw [String.data_append]
  exact h.trans (List.prefix_append x.data y.data)

theorem pyStartsWith_rstrip {x pre : String}
    (hlast : pre.data.reverse.head?.any (fun c => !isPyWS c) = true)
    (h : pyStartsWith x pre = true) : pyStartsWith (pyRstrip x) pre = true := by
  rw [pyStartsWith_iff] at h ⊢
  rcases hrev : pre.data.reverse with _ | ⟨c₀, t⟩
  · rw [hrev] at hlast
    cases hlast
  · rw [hrev] at hlast
    have hws : isPyWS c₀ = false := by
      simp [Option.any] at hlast
      exact hlast
    exact rstrip_preserves_prefix hrev hws h

theorem nl_pat_last {name : String} {c₀ : Char} {t : List Char}
    (hrev : name.data.reverse = c₀ :: t) :
    ("\n" ++ name).data.reverse = c₀ :: (t ++ ['\n']) := by
  rw [String.data_append]
  exact reverse_append_last hrev

theorem lineStartHit_final {name t1 : String} (ls : List String)
    (hlast : name.data.reverse.head?.any (fun c => !isPyWS c) = true)
    (hT : lineStartHit name t1 = true) :
    lineStartHit name (pyRstrip t1 ++ "\n" ++ joinNL ls ++ "\n") = true := by
  rcases hrev : name.data.reverse with _ | ⟨c₀, t⟩
  · rw [hrev] at hlast
    cases hlast
  · rw [hrev] at hlast
    have hws : isPyWS c₀ = false := by
      simp [Option.any] at hlast
      exact hlast
    rcases Bool.or_eq_true _ _ |>.mp hT with h1 | h2
    · refine Bool.or_eq_true _ _ |>.mpr (Or.inl ?_)
      refine pyStartsWith_append (pyStartsWith_append (pyStartsWith_append ?_))
      rw [pyStartsWith_iff] at h1 ⊢
      exact rstrip_preserves_prefix hrev hws h1
    · refine Bool.or_eq_true _ _ |>.mpr (Or.inr ?_)
      refine pyIn_append_left (pyIn_append_left (pyIn_append_left ?_))
      rw [pyIn_iff] at h2 ⊢
      show ("\n" ++ name).data <:+: (pyRstrip t1).data
      exact rstrip_preserves_infix (nl_pat_last hrev) hws h2

theorem lineStartHit_header {name txt : String}
    (hs : pyStartsWith txt name = true) :
    pyIn ("\n" ++ name) (REQ_DEV_HEADER ++ txt) = true := by
  rw [pyIn_iff]
  have hdata : (REQ_DEV_HEADER ++ txt).data
      = ("# Development dependencies").data ++ '\n' :: txt.data := by simp [REQ_DEV_HEADER]
  rw [hdata]
  refine infix_right_lift ?_
  have h2 : ('\n' :: name.data) <+: ('\n' :: txt.data) :=
    (List.cons_prefix_cons).mpr ⟨rfl, pyStartsWith_iff.mp hs⟩
  have : ("\n" ++ name).data = '\n' :: name.data := by simp
  rw [this]
  exact h2.isInfix

theorem lineStartHit_in_missing {name w : String} {ls : List String} (hw : w ∈ ls)
    (hpre : pyStartsWith w name = true) (r : String) :
    lineStartHit name (r ++ "\n" ++ joinNL ls ++ "\n") = true := by
  refine Bool.or_eq_true _ _ |>.mpr (Or.inr ?_)
  rw [pyIn_iff]
  have hdata : (r ++ "\n" ++ joinNL ls ++ "\n").data
      = r.data ++ (('\n' :: joinNLc (ls.map String.data)) ++ ['\n']) := by
    simp [joinNL_data]
  rw [hdata]
  have h1 : ('\n' :: w.data) <:+: '\n' :: joinNLc (ls.map String.data) :=
    newline_mem_joinNLc (List.mem_map.mpr ⟨w, hw, rfl⟩)
  have h2 : ('\n' :: name.data) <+: ('\n' :: w.data) :=
    (List.cons_prefix_cons).mpr ⟨rfl, pyStartsWith_iff.mp hpre⟩
  have h3 := h2.isInfix.trans h1
  have hpat : ("\n" ++ name).data = '\n' :: name.data := by simp
  rw [hpat]
  exact infix_right_lift (infix_left_lift h3)

theorem idem_requirements (c : Option String) (ro : Bool) :
    ensureRequirementsDev (ensureRequirementsDev c ro false).1 ro false
      = ((ensureRequirementsDev c ro false).1, false) := by
  cases c with
  | none => cases ro <;> rfl
  | some txt =>
    by_cases hM : ((reqWant ro).filter (fun w => lineStartHit (pkgOf w) txt = false)).isEmpty
      = true
    · have hfirst : ensureRequirementsDev (some txt) ro false = (some txt, false) := by
        simp only [ensureRequirementsDev]
        rw [if_pos hM]
      rw [hfirst]
      exact hfirst
    · have hfirst : ensureRequirementsDev (some txt) ro false
        = (some (pyRstrip (if pyStartsWith (pyStrip txt) "#" then txt
            else REQ_DEV_HEADER ++ txt) ++ "\n"
          ++ joinNL ((reqWant ro).filter (fun w => lineStartHit (pkgOf w) txt = false))
          ++ "\n"), true) := by
        simp only [ensureRequirementsDev]
        rw [if_neg hM]
        simp
      have hall : ∀ w ∈ reqWant ro, lineStartHit (pkgOf w)
          (pyRstrip (if pyStartsWith (pyStrip txt) "#" then txt
            else REQ_DEV_HEADER ++ txt) ++ "\n"
          ++ joinNL ((reqWant ro).filter (fun w => lineStartHit (pkgOf w) txt = false))
          ++ "\n") = true := by
        intro w hw
        have hlastw : (pkgOf w).data.reverse.head?.any (fun c => !isPyWS c) = true := by
          cases ro <;> simp [reqWant] at hw
          · rcases hw with rfl | rfl | rfl <;> decide
          · rcases hw with rfl | rfl <;> decide
        by_cases hhit : lineStartHit (pkgOf w) txt = true
        · have hT : lineStartHit (pkgOf w)
              (if pyStartsWith (pyStrip txt) "#" then txt else REQ_DEV_HEADER ++ txt) = true := by
            by_cases hH : pyStartsWith (pyStrip txt) "#" = true
            · rw [if_pos hH]
              exact hhit
            · rw [if_neg hH]
              rcases Bool.or_eq_true _ _ |>.mp hhit with h1 | h2
              · exact Bool.or_eq_true _ _ |>.mpr (Or.inr (lineStartHit_header h1))
              · exact Bool.or_eq_true _ _ |>.mpr (Or.inr (pyIn_append_right h2))
          exact lineStartHit_final _ hlastw hT
        · have hwm : w ∈ (reqWant ro).filter (fun w => lineStartHit (pkgOf w) txt = false) := by
            refine List.mem_filter.mpr ⟨hw, ?_⟩
            simpa using hhit
          have hpre : pyStartsWith w (pkgOf w) = true := by
            rw [pyStartsWith_iff]
            exact List.takeWhile_prefix _
          exact lineStartHit_in_missing hwm hpre _
      have hM2 : ((reqWant ro).filter (fun w => lineStartHit (pkgOf w)
          (pyRstrip (if pyStartsWith (pyStrip txt) "#" then txt
            else REQ_DEV_HEADER ++ txt) ++ "\n"
          ++ joinNL ((reqWant ro).filter (fun w => lineStartHit (pkgOf w) txt = false))
          ++ "\n") = false)).isEmpty = true := by
        rw [List.isEmpty_iff]
        rw [List.filter_eq_nil_iff]
        intro w hw
        rw [hall w hw]
        simp
      have hsecond : ensureRequirementsDev (some (pyRstrip (if pyStartsWith (pyStrip txt) "#"
            then txt else REQ_DEV_HEADER ++ txt) ++ "\n"
          ++ joinNL ((reqWant ro).filter (fun w => lineStartHit (pkgOf w) txt = false))
          ++ "\n")) ro false
          = (some (pyRstrip (if pyStartsWith (pyStrip txt) "#" then txt
            else REQ_DEV_HEADER ++ txt) ++ "\n"
          ++ joinNL ((reqWant ro).filter (fun w => lineStartHit (pkgOf w) txt = false))
          ++ "\n"), false) := by
        simp only [ensureRequirementsDev]
        rw [if_pos hM2]
      rw [hfirst]
      exact hsecond

/-! ### pyproject idempotence helpers -/

theorem pyIn_of_startsWith {pat s : String} (h : pyStartsWith s pat = true) :
    pyIn pat s = true := by
  rw [pyIn_iff]
  exact (pyStartsWith_iff.mp h).isInfix

theorem projectBlock_proj (n : String) (a b : Option String) (pyver entry : String) :
    pyIn "[project]" (projectBlock n a b pyver entry) = true := by
  refine pyIn_of_startsWith ?_
  rw [projectBlock]
  iterate 12 refine pyStartsWith_append ?_
  decide

theorem projectBlock_scripts (n : String) (a b : Option String) (pyver entry : String) :
    pyIn "[project.scripts]" (projectBlock n a b pyver entry) = true := by
  rw [projectBlock]
  exact pyIn_append_left (pyIn_append_left (pyIn_append_left (pyIn_append_left
    (pyIn_append_right (by decide)))))

theorem scriptsBlock_scripts (n entry : String) :
    pyIn "[project.scripts]" (scriptsBlock n entry) = true := by
  rw [scriptsBlock]
  exact pyIn_append_left (pyIn_append_left (pyIn_append_left (pyIn_append_left (by decide))))

theorem insert_scriptsBlock (n entry : String) (k : Nat) (lines : List String) :
    pyIn "[project.scripts]" (joinNL (pyInsert k (scriptsBlock n entry) lines)) = true := by
  rw [pyIn_iff, joinNL_data]
  have h1 : (scriptsBlock n entry).data
      ∈ (pyInsert k (scriptsBlock n entry) lines).map String.data :=
    List.mem_map.mpr ⟨scriptsBlock n entry, pyInsert_self _ k lines, rfl⟩
  exact (pyIn_iff.mp (scriptsBlock_scripts n entry)).trans (mem_joinNLc h1)

theorem insert_keeps {M txt : String} (b : String) (k : Nat)
    (hch : ∀ ch ∈ M.data, ch ≠ '\n')
    (h : pyIn M txt = true) :
    pyIn M (joinNL (pyInsert k b (pySplit txt '\n'))) = true := by
  rw [pyIn_iff] at h
  obtain ⟨l, hl, hMl⟩ := infix_some_line h hch
  rw [pyIn_iff, joinNL_data]
  have h2 : l ∈ (pyInsert k b (pySplit txt '\n')).map String.data := by
    refine List.mem_map.mpr ⟨String.mk l, ?_, rfl⟩
    refine pyInsert_mem k ?_
    rw [pySplit]
    exact List.mem_map.mpr ⟨l, hl, rfl⟩
  exact hMl.trans (mem_joinNLc h2)

theorem pyIn_replaceFirst {M txt pat r : String}
    (hocc : pyIn pat txt = true) (hM : pyIn M r = true) :
    pyIn M (pyReplaceFirst txt pat r) = true := by
  rcases hsf : splitFirst pat.data txt.data with _ | ⟨a, b⟩
  · rw [pyIn, occursB, hsf] at hocc
    simp at hocc
  · have hres : pyReplaceFirst txt pat r = ⟨a ++ r.data ++ b⟩ := by
      rw [pyReplaceFirst, hsf]
    rw [hres, pyIn_iff]
    rw [pyIn_iff] at hM
    show M.data <:+: a ++ r.data ++ b
    exact infix_left_lift (infix_right_lift hM)

theorem pyprojStep1_markers (txt pyver : String) (pd pv : Option String) (entry n : String) :
    pyIn "[project]" (pyprojStep1 txt pyver (some n) pd pv entry).1 = true ∧
    pyIn "[project.scripts]" (pyprojStep1 txt pyver (some n) pd pv entry).1 = true := by
  by_cases hp : pyIn "[project]" txt = false
  · by_cases hbs : pyIn "[build-system]" txt = true
    · have hres : pyprojStep1 txt pyver (some n) pd pv entry
          = (pyReplaceFirst txt "[build-system]"
              ("[build-system]\n\n" ++ projectBlock n pv pd pyver entry), true) := by
        simp [pyprojStep1, hp, hbs]
      rw [hres]
      constructor
      · exact pyIn_replaceFirst hbs (pyIn_append_right (projectBlock_proj n pv pd pyver entry))
      · exact pyIn_replaceFirst hbs (pyIn_append_right (projectBlock_scripts n pv pd pyver entry))
    · have hbs' : pyIn "[build-system]" txt = false := by simpa using hbs
      have hres : pyprojStep1 txt pyver (some n) pd pv entry
          = (projectBlock n pv pd pyver entry ++ txt, true) := by
        simp [pyprojStep1, hp, hbs']
      rw [hres]
      constructor
      · exact pyIn_append_left (projectBlock_proj n pv pd pyver entry)
      · exact pyIn_append_left (projectBlock_scripts n pv pd pyver entry)
  · have hp' : pyIn "[project]" txt = true := by simpa using hp
    by_cases hps : pyIn "[project.scripts]" txt = false
    · have hres : pyprojStep1 txt pyver (some n) pd pv entry
          = (joinNL (pyInsert (scriptsInsertIdx (pySplit txt '\n')) (scriptsBlock n entry)
              (pySplit txt '\n')), true) := by
        simp [pyprojStep1, hp', hps]
      rw [hres]
      constructor
      · exact insert_keeps _ _ (by decide) hp'
      · exact insert_scriptsBlock n entry _ _
    · have hps' : pyIn "[project.scripts]" txt = true := by simpa using hps
      have hres : pyprojStep1 txt pyver (some n) pd pv entry = (txt, false) := by
        simp [pyprojStep1, hp', hps']
      rw [hres]
      exact ⟨hp', hps'⟩

theorem pyprojStep1_noop (txt pyver : String) (pd pv : Option String) (entry : String)
    (pn : Option String)
    (h : ∀ n, pn = some n →
      pyIn "[project]" txt = true ∧ pyIn "[project.scripts]" txt = true) :
    pyprojStep1 txt pyver pn pd pv entry = (txt, false) := by
  cases pn with
  | none => rfl
  | some n =>
    obtain ⟨h1, h2⟩ := h n rfl
    simp [pyprojStep1, h1, h2]

theorem pyprojBlocks_ruff (r1 : String × Bool) (ro : Bool) (pyver : String) :
    pyIn "[tool.ruff]" (pyprojBlocks r1 ro pyver).1 = true := by
  by_cases hr : pyIn "[tool.ruff]" r1.1 = true
  · cases ro with
    | true =>
      have hres : pyprojBlocks r1 true pyver = r1 := by simp [pyprojBlocks, hr]
      rw [hres]
      exact hr
    | false =>
      by_cases hbb : pyIn "[tool.black]" r1.1 = true
      · have hres : pyprojBlocks r1 false pyver = r1 := by simp [pyprojBlocks, hr, hbb]
        rw [hres]
        exact hr
      · have hbb' : pyIn "[tool.black]" r1.1 = false := by simpa using hbb
        have hres : pyprojBlocks r1 false pyver
            = (pyRstrip r1.1 ++ (if pyEndsWith r1.1 "\n" then "\n" else "\n\n")
                ++ blackBlockFor pyver, true) := by
          simp [pyprojBlocks, hr, hbb']
        rw [hres]
        exact pyIn_append_left (pyIn_append_left (pyIn_rstrip (by decide) hr))
  · have hr' : pyIn "[tool.ruff]" r1.1 = false := by simpa using hr
    have hrA : pyIn "[tool.ruff]"
        (pyRstrip r1.1 ++ (if pyEndsWith r1.1 "\n" then "\n" else "\n\n")
          ++ ruffBlockFor pyver) = true :=
      pyIn_append_right (ruffBlockFor_marker pyver)
    cases ro with
    | true =>
      have hres : pyprojBlocks r1 true pyver
          = (pyRstrip r1.1 ++ (if pyEndsWith r1.1 "\n" then "\n" else "\n\n")
              ++ ruffBlockFor pyver, true) := by
        simp [pyprojBlocks, hr']
      rw [hres]
      exact hrA
    | false =>
      by_cases hb2 : pyIn "[tool.black]"
          (pyRstrip r1.1 ++ (if pyEndsWith r1.1 "\n" then "\n" else "\n\n")
            ++ ruffBlockFor pyver) = true
      · have hres : pyprojBlocks r1 false pyver
            = (pyRstrip r1.1 ++ (if pyEndsWith r1.1 "\n" then "\n" else "\n\n")
                ++ ruffBlockFor pyver, true) := by
          simp [pyprojBlocks, hr', hb2]
        rw [hres]
        exact hrA
      · have hb2' : pyIn "[tool.black]"
            (pyRstrip r1.1 ++ (if pyEndsWith r1.1 "\n" then "\n" else "\n\n")
              ++ ruffBlockFor pyver) = false := by simpa using hb2
        have hres : pyprojBlocks r1 false pyver
            = (pyRstrip (pyRstrip r1.1 ++ (if pyEndsWith r1.1 "\n" then "\n" else "\n\n")
                ++ ruffBlockFor pyver)
              ++ (if pyEndsWith (pyRstrip r1.1
                    ++ (if pyEndsWith r1.1 "\n" then "\n" else "\n\n")
                    ++ ruffBlockFor pyver) "\n" then "\n" else "\n\n")
              ++ blackBlockFor pyver, true) := by
          simp [pyprojBlocks, hr', hb2']
        rw [hres]
        exact pyIn_append_left (pyIn_append_left (pyIn_rstrip (by decide) hrA))

theorem pyprojBlocks_black (r1 : String × Bool) (pyver : String) :
    pyIn "[tool.black]" (pyprojBlocks r1 false pyver).1 = true := by
  by_cases hr : pyIn "[tool.ruff]" r1.1 = true
  · by_cases hbb : pyIn "[tool.black]" r1.1 = true
    · have hres : pyprojBlocks r1 false pyver = r1 := by simp [pyprojBlocks, hr, hbb]
      rw [hres]
      exact hbb
    · have hbb' : pyIn "[tool.black]" r1.1 = false := by simpa using hbb
      have hres : pyprojBlocks r1 false pyver
          = (pyRstrip r1.1 ++ (if pyEndsWith r1.1 "\n" then "\n" else "\n\n")
              ++ blackBlockFor pyver, true) := by
        simp [pyprojBlocks, hr, hbb']
      rw [hres]
      exact pyIn_append_right (blackBlockFor_marker pyver)
  · have hr' : pyIn "[tool.ruff]" r1.1 = false := by simpa using hr
    by_cases hb2 : pyIn "[tool.black]"
        (pyRstrip r1.1 ++ (if pyEndsWith r1.1 "\n" then "\n" else "\n\n")
          ++ ruffBlockFor pyver) = true
    · have hres : pyprojBlocks r1 false pyver
          = (pyRstrip r1.1 ++ (if pyEndsWith r1.1 "\n" then "\n" else "\n\n")
              ++ ruffBlockFor pyver, true) := by
        simp [pyprojBlocks, hr', hb2]
      rw [hres]
      exact hb2
    · have hb2' : pyIn "[tool.black]"
          (pyRstrip r1.1 ++ (if pyEndsWith r1.1 "\n" then "\n" else "\n\n")
            ++ ruffBlockFor pyver) = false := by simpa using hb2
      have hres : pyprojBlocks r1 false pyver
          = (pyRstrip (pyRstrip r1.1 ++ (if pyEndsWith r1.1 "\n" then "\n" else "\n\n")
              ++ ruffBlockFor pyver)
            ++ (if pyEndsWith (pyRstrip r1.1
                  ++ (if pyEndsWith r1.1 "\n" then "\n" else "\n\n")
                  ++ ruffBlockFor pyver) "\n" then "\n" else "\n\n")
            ++ blackBlockFor pyver, true) := by
        simp [pyprojBlocks, hr', hb2']
      rw [hres]
      exact pyIn_append_right (blackBlockFor_marker pyver)

theorem pyprojBlocks_keeps {pat : String} (r1 : String × Bool) (ro : Bool) (pyver : String)
    (hlast : pat.data.reverse.head?.any (fun c => !isPyWS c) = true)
    (h : pyIn pat r1.1 = true) :
    pyIn pat (pyprojBlocks r1 ro pyver).1 = true := by
  by_cases hr : pyIn "[tool.ruff]" r1.1 = true
  · cases ro with
    | true =>
      have hres : pyprojBlocks r1 true pyver = r1 := by simp [pyprojBlocks, hr]
      rw [hres]
      exact h
    | false =>
      by_cases hbb : pyIn "[tool.black]" r1.1 = true
      · have hres : pyprojBlocks r1 false pyver = r1 := by simp [pyprojBlocks, hr, hbb]
        rw [hres]
        exact h
      · have hbb' : pyIn "[tool.black]" r1.1 = false := by simpa using hbb
        have hres : pyprojBlocks r1 false pyver
            = (pyRstrip r1.1 ++ (if pyEndsWith r1.1 "\n" then "\n" else "\n\n")
                ++ blackBlockFor pyver, true) := by
          simp [pyprojBlocks, hr, hbb']
        rw [hres]
        exact pyIn_append_left (pyIn_append_left (pyIn_rstrip hlast h))
  · have hr' : pyIn "[tool.ruff]" r1.1 = false := by simpa using hr
    have hA : pyIn pat
        (pyRstrip r1.1 ++ (if pyEndsWith r1.1 "\n" then "\n" else "\n\n")
          ++ ruffBlockFor pyver) = true :=
      pyIn_append_left (pyIn_append_left (pyIn_rstrip hlast h))
    cases ro with
    | true =>
      have hres : pyprojBlocks r1 true pyver
          = (pyRstrip r1.1 ++ (if pyEndsWith r1.1 "\n" then "\n" else "\n\n")
              ++ ruffBlockFor pyver, true) := by
        simp [pyprojBlocks, hr']
      rw [hres]
      exact hA
    | false =>
      by_cases hb2 : pyIn "[tool.black]"
          (pyRstrip r1.1 ++ (if pyEndsWith r1.1 "\n" then "\n" else "\n\n")
            ++ ruffBlockFor pyver) = true
      · have hres : pyprojBlocks r1 false pyver
            = (pyRstrip r1.1 ++ (if pyEndsWith r1.1 "\n" then "\n" else "\n\n")
                ++ ruffBlockFor pyver, true) := by
          simp [pyprojBlocks, hr', hb2]
        rw [hres]
        exact hA
      · have hb2' : pyIn "[tool.black]"
            (pyRstrip r1.1 ++ (if pyEndsWith r1.1 "\n" then "\n" else "\n\n")
              ++ ruffBlockFor pyver) = false := by simpa using hb2
        have hres : pyprojBlocks r1 false pyver
            = (pyRstrip (pyRstrip r1.1 ++ (if pyEndsWith r1.1 "\n" then "\n" else "\n\n")
                ++ ruffBlockFor pyver)
              ++ (if pyEndsWith (pyRstrip r1.1
                    ++ (if pyEndsWith r1.1 "\n" then "\n" else "\n\n")
                    ++ ruffBlockFor pyver) "\n" then "\n" else "\n\n")
              ++ blackBlockFor pyver, true) := by
          simp [pyprojBlocks, hr', hb2']
        rw [hres]
        exact pyIn_append_left (pyIn_append_left (pyIn_rstrip hlast hA))

theorem pyprojBlocks_noop (s : String) (ch ro : Bool) (pyver : String)
    (hr : pyIn "[tool.ruff]" s = true)
    (hb : ro = false → pyIn "[tool.black]" s = true) :
    pyprojBlocks (s, ch) ro pyver = (s, ch) := by
  cases ro with
  | true => simp [pyprojBlocks, hr]
  | false => simp [pyprojBlocks, hr, hb rfl]

theorem pyproj_second_noop (s : String) (ro : Bool) (pyver : String)
    (pn pd pv pkg : Option String)
    (hproj : ∀ n, pn = some n →
      pyIn "[project]" s = true ∧ pyIn "[project.scripts]" s = true)
    (hr : pyIn "[tool.ruff]" s = true)
    (hb : ro = false → pyIn "[tool.black]" s = true) :
    ensurePyproject (some s) ro pyver false pn pd pv pkg = (some s, false) := by
  have h1 : pyprojStep1 s pyver pn pd pv (entryPointOf pkg) = (s, false) :=
    pyprojStep1_noop s pyver pd pv (entryPointOf pkg) pn hproj
  have h2 : pyprojBlocks (s, false) ro pyver = (s, false) :=
    pyprojBlocks_noop s false ro pyver hr hb
  simp [ensurePyproject, h1, h2]

theorem idem_pyproject (c : Option String) (ro : Bool) (pyver : String)
    (pn pd pv pkg : Option String) :
    ensurePyproject (ensurePyproject c ro pyver false pn pd pv pkg).1 ro pyver false pn pd pv pkg
      = ((ensurePyproject c ro pyver false pn pd pv pkg).1, false) := by
  cases c with
  | some txt =>
    rcases h3 : pyprojBlocks (pyprojStep1 txt pyver pn pd pv (entryPointOf pkg)) ro pyver
      with ⟨s3, c3⟩
    cases c3 with
    | false =>
      have hfirst : ensurePyproject (some txt) ro pyver false pn pd pv pkg
          = (some txt, false) := by
        simp [ensurePyproject, h3]
      rw [hfirst]
      exact hfirst
    | true =>
      have hfirst : ensurePyproject (some txt) ro pyver false pn pd pv pkg
          = (some s3, true) := by
        simp [ensurePyproject, h3]
      have hruff : pyIn "[tool.ruff]" s3 = true := by
        have h := pyprojBlocks_ruff (pyprojStep1 txt pyver pn pd pv (entryPointOf pkg)) ro pyver
        rw [h3] at h
        exact h
      have hblack : ro = false → pyIn "[tool.black]" s3 = true := by
        intro hro
        subst hro
        have h := pyprojBlocks_black (pyprojStep1 txt pyver pn pd pv (entryPointOf pkg)) pyver
        rw [h3] at h
        exact h
      have hproj : ∀ n, pn = some n →
          pyIn "[project]" s3 = true ∧ pyIn "[project.scripts]" s3 = true := by
        intro n hn
        subst hn
        obtain ⟨hP, hS⟩ := pyprojStep1_markers txt pyver pd pv (entryPointOf pkg) n
        have hP3 := pyprojBlocks_keeps (pyprojStep1 txt pyver (some n) pd pv (entryPointOf pkg))
          ro pyver (by decide) hP
        have hS3 := pyprojBlocks_keeps (pyprojStep1 txt pyver (some n) pd pv (entryPointOf pkg))
          ro pyver (by decide) hS
        rw [h3] at hP3 hS3
        exact ⟨hP3, hS3⟩
      rw [hfirst]
      exact pyproj_second_noop s3 ro pyver pn pd pv pkg hproj hruff hblack
  | none =>
    cases pn with
    | none =>
      cases ro with
      | true =>
        have hfirst : ensurePyproject none true pyver false none pd pv pkg
            = (some (MINIMAL_PYPROJECT_BUILD ++ "\n\n" ++ "" ++ ruffBlockFor pyver), true) := rfl
        rw [hfirst]
        refine pyproj_second_noop _ true pyver none pd pv pkg (fun n hn => by cases hn) ?_ ?_
        · exact pyIn_append_right (ruffBlockFor_marker pyver)
        · exact fun h => absurd h (by decide)
      | false =>
        have hfirst : ensurePyproject none false pyver false none pd pv pkg
            = (some (MINIMAL_PYPROJECT_BUILD ++ "\n\n" ++ "" ++ ruffBlockFor pyver
                ++ "\n\n" ++ blackBlockFor pyver), true) := rfl
        rw [hfirst]
        refine pyproj_second_noop _ false pyver none pd pv pkg (fun n hn => by cases hn) ?_ ?_
        · exact pyIn_append_left (pyIn_append_left (pyIn_append_right
            (ruffBlockFor_marker pyver)))
        · exact fun _ => pyIn_append_right (blackBlockFor_marker pyver)
    | some n =>
      cases ro with
      | true =>
        have hfirst : ensurePyproject none true pyver false (some n) pd pv pkg
            = (some (MINIMAL_PYPROJECT_BUILD ++ "\n\n"
                ++ projectBlock n pv pd pyver (entryPointOf pkg)
                ++ ruffBlockFor pyver), true) := rfl
        rw [hfirst]
        refine pyproj_second_noop _ true pyver (some n) pd pv pkg ?_ ?_ ?_
        · intro m _
          constructor
          · exact pyIn_append_left (pyIn_append_right
              (projectBlock_proj n pv pd pyver (entryPointOf pkg)))
          · exact pyIn_append_left (pyIn_append_right
              (projectBlock_scripts n pv pd pyver (entryPointOf pkg)))
        · exact pyIn_append_right (ruffBlockFor_marker pyver)
        · exact fun h => absurd h (by decide)
      | false =>
        have hfirst : ensurePyproject none false pyver false (some n) pd pv pkg
            = (some (MINIMAL_PYPROJECT_BUILD ++ "\n\n"
                ++ projectBlock n pv pd pyver (entryPointOf pkg)
                ++ ruffBlockFor pyver ++ "\n\n" ++ blackBlockFor pyver), true) := rfl
        rw [hfirst]
        refine pyproj_second_noop _ false pyver (some n) pd pv pkg ?_ ?_ ?_
        · intro m _
          constructor
          · exact pyIn_append_left (pyIn_append_left (pyIn_append_left (pyIn_append_right
              (projectBlock_proj n pv pd pyver (entryPointOf pkg)))))
          · exact pyIn_append_left (pyIn_append_left (pyIn_append_left (pyIn_append_right
              (projectBlock_scripts n pv pd pyver (entryPointOf pkg)))))
        · exact pyIn_append_left (pyIn_append_left (pyIn_append_right
            (ruffBlockFor_marker pyver)))
        · exact fun _ => pyIn_append_right (blackBlockFor_marker pyver)

/-! ### CI idempotence helpers -/

theorem ciTemplate_ruff_format (pyver b s : String) :
    pyIn "ruff format --check" (ciTemplate pyver b s) = true := by
  rw [ciTemplate]
  exact pyIn_append_left (pyIn_append_left (pyIn_append_right (by decide)))

theorem ciTemplate_ruff_check (pyver b s : String) :
    pyIn "ruff check" (ciTemplate pyver b s) = true := by
  rw [ciTemplate]
  exact pyIn_append_left (pyIn_append_left (pyIn_append_right (by decide)))

theorem ciTemplate_black (pyver b : String) :
    pyIn "black --check" (ciTemplate pyver b BLACK_CHECK_STEP) = true := by
  rw [ciTemplate]
  exact pyIn_append_left (pyIn_append_right (by decide))

theorem ciTemplate_pipblack (pyver s : String) :
    pyIn "pip install black" (ciTemplate pyver BLACK_DEP_STEP s) = true := by
  rw [ciTemplate]
  exact pyIn_append_left (pyIn_append_left (pyIn_append_left (pyIn_append_right (by decide))))

theorem ci_second_noop (s : String) (ro : Bool) (pyver : String)
    (hF : pyIn "ruff format --check" s = true)
    (hC : pyIn "ruff check" s = true)
    (hro : ro = false → pyIn "black --check" s = true ∧
      (pyIn "pip install black" s = true ∨ pyIn "pip install ruff" s = false)) :
    ensureCI (some s) ro pyver false = (some s, false) := by
  cases ro with
  | true => simp [ensureCI, ciStep, hF, hC]
  | false =>
    obtain ⟨hB, hOr⟩ := hro rfl
    rcases hOr with hPB | hPR
    · simp [ensureCI, ciStep, hF, hC, hB, hPB]
    · simp [ensureCI, ciStep, hF, hC, hB, hPR]

theorem pyIn_padnl {pat t : String} (h : pyIn pat t = true) :
    pyIn pat (if pyEndsWith t "\n" then t else t ++ "\n") = true := by
  by_cases he : pyEndsWith t "\n" = true
  · rw [if_pos he]
    exact h
  · rw [if_neg he]
    exact pyIn_append_left h

theorem pyIn_append_nl_false {pat a : String}
    (hnl : ∀ ch ∈ pat.data, ch ≠ '\n') (hnil : pat.data ≠ [])
    (ha : pyIn pat a = false) : pyIn pat (a ++ "\n") = false := by
  rw [pyIn_false_iff] at ha ⊢
  intro hcon
  have hd : (a ++ "\n").data = a.data ++ ('\n' :: []) := by simp
  rw [hd] at hcon
  rcases infix_append_no_boundary hcon hnl ⟨[], rfl⟩ with h1 | h1
  · exact ha h1
  · exact not_infix_cons_of hnl hnil (fun hc => hnil (List.infix_nil.mp hc)) h1

theorem pyIn_join_nl_false {pat a b : String}
    (hnl : ∀ ch ∈ pat.data, ch ≠ '\n') (hnil : pat.data ≠ [])
    (ha : pyIn pat a = false) (hb : pyIn pat b = false) :
    pyIn pat (a ++ "\n" ++ b) = false := by
  rw [pyIn_false_iff] at ha hb ⊢
  intro hcon
  have hd : (a ++ "\n" ++ b).data = a.data ++ ('\n' :: b.data) := by simp
  rw [hd] at hcon
  rcases infix_append_no_boundary hcon hnl ⟨b.data, rfl⟩ with h1 | h1
  · exact ha h1
  · exact not_infix_cons_of hnl hnil hb h1

theorem pyIn_padnl_false {pat t : String}
    (hnl : ∀ ch ∈ pat.data, ch ≠ '\n') (hnil : pat.data ≠ [])
    (h : pyIn pat t = false) :
    pyIn pat (if pyEndsWith t "\n" then t else t ++ "\n") = false := by
  by_cases he : pyEndsWith t "\n" = true
  · rw [if_pos he]
    exact h
  · rw [if_neg he]
    exact pyIn_append_nl_false hnl hnil h

theorem marker_survives_replaceFirst {M txt P ins : String}
    (hPM : ¬ P.data <:+: M.data)
    (hbad : ∀ m₁, m₁ <:+ P.data → m₁ ≠ [] → m₁ <+: M.data →
      ¬ (P.data ++ M.data.drop m₁.length) <:+: txt.data)
    (h : pyIn M txt = true) :
    pyIn M (pyReplaceFirst txt P (P ++ ins)) = true := by
  rcases hsf : splitFirst P.data txt.data with _ | ⟨a, b⟩
  · have hres : pyReplaceFirst txt P (P ++ ins) = txt := by
      rw [pyReplaceFirst, hsf]
    rw [hres]
    exact h
  · have hdecomp : txt.data = a ++ P.data ++ b := splitFirst_some_eq hsf
    have hres : pyReplaceFirst txt P (P ++ ins) = ⟨a ++ (P ++ ins).data ++ b⟩ := by
      rw [pyReplaceFirst, hsf]
    rw [hres, pyIn_iff]
    rw [pyIn_iff] at h
    rw [hdecomp] at h
    have hbad2 : ∀ m₁, m₁ <:+ P.data → m₁ ≠ [] → m₁ <+: M.data →
        ¬ (P.data ++ M.data.drop m₁.length) <:+: (a ++ P.data) ++ b := by
      intro m₁ w1 w2 w3
      have hx := hbad m₁ w1 w2 w3
      rw [hdecomp] at hx
      exact hx
    rcases marker_survives_step h hPM hbad2 with h1 | h1
    · show M.data <:+: a ++ (P ++ ins).data ++ b
      have h2 : M.data <:+: ((a ++ P.data) ++ ins.data) ++ b :=
        infix_left_lift (infix_left_lift h1)
      have he : a ++ (P ++ ins).data ++ b = ((a ++ P.data) ++ ins.data) ++ b := by
        simp [List.append_assoc]
      rw [he]
      exact h2
    · show M.data <:+: a ++ (P ++ ins).data ++ b
      exact infix_right_lift h1

theorem pyIn_replace_of_occ {pat txt P r : String}
    (hocc : pyIn P txt = true) (hM : pyIn pat r = true) :
    pyIn pat (pyReplace txt P r) = true := by
  rcases hsf : splitFirst P.data txt.data with _ | ⟨a, b⟩
  · rw [pyIn, occursB, hsf] at hocc
    simp at hocc
  · rw [pyIn_iff]
    show pat.data <:+: replChars P.data r.data (txt.data.length + 1) txt.data
    rw [replChars, hsf]
    rw [pyIn_iff] at hM
    exact infix_left_lift (infix_right_lift hM)

theorem idem_ci (c : Option String) (ro : Bool) (pyver : String)
    (hov : ∀ txt, c = some txt → pyIn "pip install ruff check" txt = false ∧
      pyIn "pip install ruff format --check" txt = false) :
    ensureCI (ensureCI c ro pyver false).1 ro pyver false
      = ((ensureCI c ro pyver false).1, false) := by
  cases c with
  | none =>
    cases ro with
    | true =>
      have hfirst : ensureCI none true pyver false
          = (some (ciTemplate pyver "" ""), true) := rfl
      rw [hfirst]
      exact ci_second_noop _ true pyver (ciTemplate_ruff_format pyver "" "")
        (ciTemplate_ruff_check pyver "" "") (fun h => absurd h (by decide))
    | false =>
      have hfirst : ensureCI none false pyver false
          = (some (ciTemplate pyver BLACK_DEP_STEP BLACK_CHECK_STEP), true) := rfl
      rw [hfirst]
      exact ci_second_noop _ false pyver
        (ciTemplate_ruff_format pyver BLACK_DEP_STEP BLACK_CHECK_STEP)
        (ciTemplate_ruff_check pyver BLACK_DEP_STEP BLACK_CHECK_STEP)
        (fun _ => ⟨ciTemplate_black pyver BLACK_DEP_STEP,
          Or.inl (ciTemplate_pipblack pyver BLACK_CHECK_STEP)⟩)
  | some txt =>
    obtain ⟨hov1, hov2⟩ := hov txt rfl
    cases ro with
    | true =>
      by_cases hF : pyIn "ruff format --check" txt = true
      · by_cases hC : pyIn "ruff check" txt = true
        · have hfirst : ensureCI (some txt) true pyver false = (some txt, false) := by
            simp [ensureCI, ciStep, hF, hC]
          rw [hfirst]
          exact hfirst
        · have hC' : pyIn "ruff check" txt = false := by simpa using hC
          have hfirst : ensureCI (some txt) true pyver false
              = (some (pyRstrip txt ++ "\n\n" ++ ciTemplate pyver "" ""), true) := by
            simp [ensureCI, ciStep, hF, hC']
          rw [hfirst]
          exact ci_second_noop _ true pyver
            (pyIn_append_right (ciTemplate_ruff_format pyver "" ""))
            (pyIn_append_right (ciTemplate_ruff_check pyver "" ""))
            (fun h => absurd h (by decide))
      · have hF' : pyIn "ruff format --check" txt = false := by simpa using hF
        have hfirst : ensureCI (some txt) true pyver false
            = (some (pyRstrip txt ++ "\n\n" ++ ciTemplate pyver "" ""), true) := by
          simp [ensureCI, ciStep, hF']
        rw [hfirst]
        exact ci_second_noop _ true pyver
          (pyIn_append_right (ciTemplate_ruff_format pyver "" ""))
          (pyIn_append_right (ciTemplate_ruff_check pyver "" ""))
          (fun h => absurd h (by decide))
    | false =>
      have hbadF : ∀ m₁, m₁ <:+ ("pip install ruff" : String).data → m₁ ≠ [] →
          m₁ <+: ("ruff format --check" : String).data →
          ¬ (("pip install ruff" : String).data
            ++ ("ruff format --check" : String).data.drop m₁.length) <:+: txt.data := by
        refine hbad_of_bads [("pip install ruff format --check" : String).data]
          (by decide) ?_
        intro B hB
        simp only [List.mem_singleton] at hB
        subst hB
        exact pyIn_false_iff.mp hov2
      have hbadC : ∀ m₁, m₁ <:+ ("pip install ruff" : String).data → m₁ ≠ [] →
          m₁ <+: ("ruff check" : String).data →
          ¬ (("pip install ruff" : String).data
            ++ ("ruff check" : String).data.drop m₁.length) <:+: txt.data := by
        refine hbad_of_bads [("pip install ruff check" : String).data] (by decide) ?_
        intro B hB
        simp only [List.mem_singleton] at hB
        subst hB
        exact pyIn_false_iff.mp hov1
      have hbadB : ∀ m₁, m₁ <:+ ("pip install ruff" : String).data → m₁ ≠ [] →
          m₁ <+: ("black --check" : String).data →
          ¬ (("pip install ruff" : String).data
            ++ ("black --check" : String).data.drop m₁.length) <:+: txt.data := by
        refine hbad_of_bads [] (by decide) ?_
        intro B hB
        cases hB
      by_cases hF : pyIn "ruff format --check" txt = true
      · by_cases hC : pyIn "ruff check" txt = true
        · by_cases hBC : pyIn "black --check" txt = true
          · by_cases hPB : pyIn "pip install black" txt = true
            · have hfirst : ensureCI (some txt) false pyver false = (some txt, false) := by
                simp [ensureCI, ciStep, hF, hC, hBC, hPB]
              rw [hfirst]
              exact hfirst
            · have hPB' : pyIn "pip install black" txt = false := by simpa using hPB
              by_cases hPR : pyIn "pip install ruff" txt = true
              · have hfirst : ensureCI (some txt) false pyver false
                    = (some (pyReplaceFirst txt "pip install ruff"
                        "pip install ruff\n        pip install black"), true) := by
                  simp [ensureCI, ciStep, hF, hC, hBC, hPB', hPR]
                have hlit : ("pip install ruff\n        pip install black" : String)
                    = "pip install ruff" ++ "\n        pip install black" := by decide
                rw [hfirst, hlit]
                refine ci_second_noop _ false pyver ?_ ?_ (fun _ => ⟨?_, Or.inl ?_⟩)
                · exact marker_survives_replaceFirst (by decide) hbadF hF
                · exact marker_survives_replaceFirst (by decide) hbadC hC
                · exact marker_survives_replaceFirst (by decide) hbadB hBC
                · exact pyIn_replaceFirst hPR (by decide)
              · have hPR' : pyIn "pip install ruff" txt = false := by simpa using hPR
                have hfirst : ensureCI (some txt) false pyver false = (some txt, false) := by
                  simp [ensureCI, ciStep, hF, hC, hBC, hPR']
                rw [hfirst]
                exact hfirst
          · have hBC' : pyIn "black --check" txt = false := by simpa using hBC
            by_cases hPR : pyIn "pip install ruff" txt = true
            · by_cases hPB : pyIn "pip install black" txt = false
              · have hfirst : ensureCI (some txt) false pyver false
                    = (some ((if pyEndsWith (pyReplace txt "pip install ruff"
                          ("pip install ruff" ++ BLACK_DEP_STEP)) "\n"
                        then pyReplace txt "pip install ruff"
                          ("pip install ruff" ++ BLACK_DEP_STEP)
                        else pyReplace txt "pip install ruff"
                          ("pip install ruff" ++ BLACK_DEP_STEP) ++ "\n")
                      ++ "\n" ++ BLACK_CHECK_STEP), true) := by
                  simp [ensureCI, ciStep, hF, hC, hBC', hPR, hPB]
                have hF1 : pyIn "ruff format --check" (pyReplace txt "pip install ruff"
                    ("pip install ruff" ++ BLACK_DEP_STEP)) = true := by
                  rw [pyIn_iff]
                  show ("ruff format --check" : String).data <:+:
                    replChars ("pip install ruff" : String).data
                      ("pip install ruff" ++ BLACK_DEP_STEP).data
                      (txt.data.length + 1) txt.data
                  rw [String.data_append]
                  exact marker_survives_repl (by decide) _ _ (pyIn_iff.mp hF) hbadF
                have hC1 : pyIn "ruff check" (pyReplace txt "pip install ruff"
                    ("pip install ruff" ++ BLACK_DEP_STEP)) = true := by
                  rw [pyIn_iff]
                  show ("ruff check" : String).data <:+:
                    replChars ("pip install ruff" : String).data
                      ("pip install ruff" ++ BLACK_DEP_STEP).data
                      (txt.data.length + 1) txt.data
                  rw [String.data_append]
                  exact marker_survives_repl (by decide) _ _ (pyIn_iff.mp hC) hbadC
                have hPB1 : pyIn "pip install black" (pyReplace txt "pip install ruff"
                    ("pip install ruff" ++ BLACK_DEP_STEP)) = true :=
                  pyIn_replace_of_occ hPR (by decide)
                rw [hfirst]
                refine ci_second_noop _ false pyver ?_ ?_ (fun _ => ⟨?_, Or.inl ?_⟩)
                · exact pyIn_append_left (pyIn_append_left (pyIn_padnl hF1))
                · exact pyIn_append_left (pyIn_append_left (pyIn_padnl hC1))
                · exact pyIn_append_right (by decide)
                · exact pyIn_append_left (pyIn_append_left (pyIn_padnl hPB1))
              · have hPB' : pyIn "pip install black" txt = true := by simpa using hPB
                have hfirst : ensureCI (some txt) false pyver false
                    = (some ((if pyEndsWith txt "\n" then txt else txt ++ "\n")
                      ++ "\n" ++ BLACK_CHECK_STEP), true) := by
                  simp [ensureCI, ciStep, hF, hC, hBC', hPR, hPB']
                rw [hfirst]
                refine ci_second_noop _ false pyver ?_ ?_ (fun _ => ⟨?_, Or.inl ?_⟩)
                · exact pyIn_append_left (pyIn_append_left (pyIn_padnl hF))
                · exact pyIn_append_left (pyIn_append_left (pyIn_padnl hC))
                · exact pyIn_append_right (by decide)
                · exact pyIn_append_left (pyIn_append_left (pyIn_padnl hPB'))
            · have hPR' : pyIn "pip install ruff" txt = false := by simpa using hPR
              have hfirst : ensureCI (some txt) false pyver false
                  = (some ((if pyEndsWith txt "\n" then txt else txt ++ "\n")
                    ++ "\n" ++ BLACK_CHECK_STEP), true) := by
                simp [ensureCI, ciStep, hF, hC, hBC', hPR']
              rw [hfirst]
              refine ci_second_noop _ false pyver ?_ ?_ (fun _ => ⟨?_, Or.inr ?_⟩)
              · exact pyIn_append_left (pyIn_append_left (pyIn_padnl hF))
              · exact pyIn_append_left (pyIn_append_left (pyIn_padnl hC))
              · exact pyIn_append_right (by decide)
              · refine pyIn_join_nl_false (by decide) (by decide)
                  (pyIn_padnl_false (by decide) (by decide) hPR') (by decide)
        · have hC' : pyIn "ruff check" txt = false := by simpa using hC
          have hfirst : ensureCI (some txt) false pyver false
              = (some (pyRstrip txt ++ "\n\n"
                ++ ciTemplate pyver BLACK_DEP_STEP BLACK_CHECK_STEP), true) := by
            simp [ensureCI, ciStep, hF, hC']
          rw [hfirst]
          exact ci_second_noop _ false pyver
            (pyIn_append_right (ciTemplate_ruff_format pyver BLACK_DEP_STEP BLACK_CHECK_STEP))
            (pyIn_append_right (ciTemplate_ruff_check pyver BLACK_DEP_STEP BLACK_CHECK_STEP))
            (fun _ => ⟨pyIn_append_right (ciTemplate_black pyver BLACK_DEP_STEP),
              Or.inl (pyIn_append_right (ciTemplate_pipblack pyver BLACK_CHECK_STEP))⟩)
      · have hF' : pyIn "ruff format --check" txt = false := by simpa using hF
        have hfirst : ensureCI (some txt) false pyver false
            = (some (pyRstrip txt ++ "\n\n"
              ++ ciTemplate pyver BLACK_DEP_STEP BLACK_CHECK_STEP), true) := by
          simp [ensureCI, ciStep, hF']
        rw [hfirst]
        exact ci_second_noop _ false pyver
          (pyIn_append_right (ciTemplate_ruff_format pyver BLACK_DEP_STEP BLACK_CHECK_STEP))
          (pyIn_append_right (ciTemplate_ruff_check pyver BLACK_DEP_STEP BLACK_CHECK_STEP))
          (fun _ => ⟨pyIn_append_right (ciTemplate_black pyver BLACK_DEP_STEP),
            Or.inl (pyIn_append_right (ciTemplate_pipblack pyver BLACK_CHECK_STEP))⟩)

/-- C1 counterexample: idempotence fails as stated for every flag
combination.  Under dry-run a missing `.editorconfig` yields
`changed = true` on the second run too (nothing was written); and even
outside dry-run, a workflow in which the baseline marker `ruff check`
occurs only inside `pip install ruff check` has that marker destroyed
by the dependency-line `str.replace`, so the second run reports a
change again. -/
theorem c1_counterexample :
    (ensureEditorconfig (ensureEditorconfig none true).1 true).2 = true ∧
    (ensureCI (some "ruff format --check\npip install ruff check\n") false "3.11" false).2
      = true ∧
    (ensureCI (ensureCI (some "ruff format --check\npip install ruff check\n")
      false "3.11" false).1 false "3.11" false).2 = true := by
  refine ⟨rfl, rfl, ?_⟩
  decide

/-- C1 amended: outside dry-run each of the five ensure operations is
idempotent — re-running on the contents produced by the first run
returns the same content and `changed = false` — where for `ensure_ci`
the original text must not contain the overlapping strings
`pip install ruff check` or `pip install ruff format --check` (the
dependency amendment replaces every occurrence of `pip install ruff`,
which would otherwise break such overlapping baseline markers). -/
theorem c1_amended_idempotence (ce cp cy cc cr : Option String) (ro : Bool) (pyver : String)
    (pn pd pv pkg : Option String)
    (hov : ∀ txt, cc = some txt → pyIn "pip install ruff check" txt = false ∧
      pyIn "pip install ruff format --check" txt = false) :
    ensureEditorconfig (ensureEditorconfig ce false).1 false
      = ((ensureEditorconfig ce false).1, false) ∧
    ensurePrecommit (ensurePrecommit cp ro false).1 ro false
      = ((ensurePrecommit cp ro false).1, false) ∧
    ensurePyproject (ensurePyproject cy ro pyver false pn pd pv pkg).1 ro pyver false
        pn pd pv pkg
      = ((ensurePyproject cy ro pyver false pn pd pv pkg).1, false) ∧
    ensureCI (ensureCI cc ro pyver false).1 ro pyver false
      = ((ensureCI cc ro pyver false).1, false) ∧
    ensureRequirementsDev (ensureRequirementsDev cr ro false).1 ro false
      = ((ensureRequirementsDev cr ro false).1, false) :=
  ⟨idem_editorconfig ce, idem_precommit cp ro, idem_pyproject cy ro pyver pn pd pv pkg,
    idem_ci cc ro pyver hov, idem_requirements cr ro⟩

/-- Witness for the amended C1 at concrete inputs (including an
existing workflow file free of the overlapping strings). -/
theorem c1_amended_idempotence_witness :
    ensureEditorconfig (ensureEditorconfig none false).1 false
      = ((ensureEditorconfig none false).1, false) ∧
    ensurePrecommit (ensurePrecommit none false false).1 false false
      = ((ensurePrecommit none false false).1, false) ∧
    ensurePyproject (ensurePyproject none false "3.11" false none none none none).1 false
        "3.11" false none none none none
      = ((ensurePyproject none false "3.11" false none none none none).1, false) ∧
    ensureCI (ensureCI (some "jobs: []\n") false "3.11" false).1 false "3.11" false
      = ((ensureCI (some "jobs: []\n") false "3.11" false).1, false) ∧
    ensureRequirementsDev (ensureRequirementsDev none false false).1 false false
      = ((ensureRequirementsDev none false false).1, false) :=
  c1_amended_idempotence none none none (some "jobs: []\n") none false "3.11"
    none none none none
    (fun t ht => by
      injection ht with h
      subst h
      exact ⟨by decide, by decide⟩)

/-! ### Dry-run purity helpers -/

theorem editorconfig_dry (c : Option String) :
    ensureEditorconfig c true = (c, (ensureEditorconfig c false).2) := by
  cases c <;> rfl

theorem precommit_dry (c : Option String) (ro : Bool) :
    ensurePrecommit c ro true = (c, (ensurePrecommit c ro false).2) := by
  cases c with
  | none => rfl
  | some txt =>
    rcases h : precommitStep txt ro with ⟨s, b⟩
    cases b <;> simp [ensurePrecommit, h]

theorem pyproject_dry (c : Option String) (ro : Bool) (pyver : String)
    (pn pd pv pkg : Option String) :
    ensurePyproject c ro pyver true pn pd pv pkg
      = (c, (ensurePyproject c ro pyver false pn pd pv pkg).2) := by
  cases c with
  | none => rfl
  | some txt =>
    rcases h : pyprojBlocks (pyprojStep1 txt pyver pn pd pv (entryPointOf pkg)) ro pyver
      with ⟨s, b⟩
    cases b <;> simp [ensurePyproject, h]

theorem ci_dry (c : Option String) (ro : Bool) (pyver : String) :
    ensureCI c ro pyver true = (c, (ensureCI c ro pyver false).2) := by
  cases c with
  | none => rfl
  | some txt =>
    rcases h : ciStep txt ro pyver with ⟨s, b⟩
    cases b <;> simp [ensureCI, h]

theorem reqdev_dry (c : Option String) (ro : Bool) :
    ensureRequirementsDev c ro true = (c, (ensureRequirementsDev c ro false).2) := by
  cases c with
  | none => rfl
  | some txt =>
    simp only [ensureRequirementsDev]
    split
    · rename_i h
      simp [h]
    · rename_i h
      simp [h]

theorem editorconfig_flag (c : Option String) (dry : Bool) :
    (ensureEditorconfig c dry).2 = (ensureEditorconfig c false).2 := by
  cases dry with
  | false => rfl
  | true => rw [editorconfig_dry]

theorem precommit_flag (c : Option String) (ro dry : Bool) :
    (ensurePrecommit c ro dry).2 = (ensurePrecommit c ro false).2 := by
  cases dry with
  | false => rfl
  | true => rw [precommit_dry]

theorem pyproject_flag (c : Option String) (ro : Bool) (pyver : String)
    (pn pd pv pkg : Option String) (dry : Bool) :
    (ensurePyproject c ro pyver dry pn pd pv pkg).2
      = (ensurePyproject c ro pyver false pn pd pv pkg).2 := by
  cases dry with
  | false => rfl
  | true => rw [pyproject_dry]

theorem ci_flag (c : Option String) (ro : Bool) (pyver : String) (dry : Bool) :
    (ensureCI c ro pyver dry).2 = (ensureCI c ro pyver false).2 := by
  cases dry with
  | false => rfl
  | true => rw [ci_dry]

theorem reqdev_flag (c : Option String) (ro dry : Bool) :
    (ensureRequirementsDev c ro dry).2 = (ensureRequirementsDev c ro false).2 := by
  cases dry with
  | false => rfl
  | true => rw [reqdev_dry]

theorem venv_fields (fs : FS) (o : Oracle) (ro dry : Bool) :
    (ensureVenvAndDeps fs o ro dry).1.editorconfig = fs.editorconfig ∧
    (ensureVenvAndDeps fs o ro dry).1.precommit = fs.precommit ∧
    (ensureVenvAndDeps fs o ro dry).1.pyproject = fs.pyproject ∧
    (ensureVenvAndDeps fs o ro dry).1.ciYml = fs.ciYml ∧
    (ensureVenvAndDeps fs o ro dry).1.reqDev = fs.reqDev := by
  cases hv : fs.venvExists <;> cases dry <;> cases hc : o.venvCreateOk <;>
    cases hp : o.venvPythonAppears <;> cases hk : o.pipOk <;>
    simp [ensureVenvAndDeps, hv, hc, hp, hk]

theorem initApply_fields (fs : FS) (n d : String) (dry : Bool) :
    (initApply fs n d dry).editorconfig = fs.editorconfig ∧
    (initApply fs n d dry).precommit = fs.precommit ∧
    (initApply fs n d dry).pyproject = fs.pyproject ∧
    (initApply fs n d dry).ciYml = fs.ciYml ∧
    (initApply fs n d dry).reqDev = fs.reqDev := by
  simp only [initApply]
  repeat' split
  all_goals exact ⟨rfl, rfl, rfl, rfl, rfl⟩

theorem initProject_rel (a : Args) (fs : FS) (o : Oracle) (hd : a.dryRun = true) :
    initializeProject a fs o
      = (initializeProject { a with dryRun := false } fs o).map (fun r => (fs, r.2)) := by
  rcases h1 : askIf a.nameOpt o.promptName (inferNameFromDirectory fs.rootName) with e | nm
  · simp [initializeProject, h1, Except.map]
  · rcases h2 : askIf a.descOpt o.promptDesc "CLI tool" with e | ds
    · simp [initializeProject, h1, h2, Except.map]
    · rcases h3 : askIf a.versionOpt o.promptVersion "0.1.0" with e | vr
      · simp [initializeProject, h1, h2, h3, Except.map]
      · simp [initializeProject, h1, h2, h3, hd, initApply, Except.map]

theorem initProject_fields (A : Args) (fs : FS) (o : Oracle) (fs1 : FS)
    (t : String × String × String × String)
    (h : initializeProject A fs o = .ok (fs1, t)) :
    fs1.editorconfig = fs.editorconfig ∧ fs1.precommit = fs.precommit ∧
    fs1.pyproject = fs.pyproject ∧ fs1.ciYml = fs.ciYml ∧ fs1.reqDev = fs.reqDev := by
  rcases h1 : askIf A.nameOpt o.promptName (inferNameFromDirectory fs.rootName) with e | nm
  · simp [initializeProject, h1] at h
  · rcases h2 : askIf A.descOpt o.promptDesc "CLI tool" with e | ds
    · simp [initializeProject, h1, h2] at h
    · rcases h3 : askIf A.versionOpt o.promptVersion "0.1.0" with e | vr
      · simp [initializeProject, h1, h2, h3] at h
      · simp only [initializeProject, h1, h2, h3, Except.ok.injEq] at h
        have hfs1 : fs1 = initApply fs (validateName nm) ds A.dryRun := by
          have := congrArg Prod.fst h
          simpa using this.symm
        rw [hfs1]
        exact initApply_fields fs (validateName nm) ds A.dryRun

theorem phase1_map (a : Args) (fs : FS) (o : Oracle) (hd : a.dryRun = true) :
    runPhase1 a fs o = (runPhase1 { a with dryRun := false } fs o).map (fun r => (fs, r.2)) := by
  by_cases hinit : a.initMode = true
  · have hrel := initProject_rel a fs o hd
    rcases hir : initializeProject { a with dryRun := false } fs o with e | ⟨fs1, n, d, v, p⟩
    · rw [hir] at hrel
      simp only [Except.map] at hrel
      rw [hinit] at hir
      simp [runPhase1, hinit, hrel, hir, Except.map]
    · rw [hir] at hrel
      simp only [Except.map] at hrel
      rw [hinit] at hir
      simp [runPhase1, hinit, hrel, hir, Except.map]
  · have hinit2 : a.initMode = false := by simpa using hinit
    rcases hdet : detectPackageStructure fs o with e | found
    · simp [runPhase1, hinit2, hdet, Except.map]
    · cases found with
      | some x => simp [runPhase1, hinit2, hdet, Except.map]
      | none =>
        rcases hrm : fs.rootMainPy with _ | content
        · simp [runPhase1, hinit2, hdet, hrm, Except.map]
        · simp [runPhase1, hinit2, hdet, hrm, hd, Except.map]

theorem phase1_fields (A : Args) (fs : FS) (o : Oracle)
    (r : FS × Option String × Option String × Option String × Option String)
    (hr : runPhase1 A fs o = .ok r) :
    r.1.editorconfig = fs.editorconfig ∧ r.1.precommit = fs.precommit ∧
    r.1.pyproject = fs.pyproject ∧ r.1.ciYml = fs.ciYml ∧ r.1.reqDev = fs.reqDev := by
  by_cases hinit : A.initMode = true
  · rcases hir : initializeProject A fs o with e | ⟨fs1, n, d, v, p⟩
    · simp [runPhase1, hinit, hir] at hr
    · simp [runPhase1, hinit, hir] at hr
      obtain ⟨q1, q2, q3, q4, q5⟩ := initProject_fields A fs o fs1 (n, d, v, p) hir
      subst hr
      exact ⟨q1, q2, q3, q4, q5⟩
  · have hinit2 : A.initMode = false := by simpa using hinit
    rcases hdet : detectPackageStructure fs o with e | found
    · simp [runPhase1, hinit2, hdet] at hr
    · cases found with
      | some x =>
        simp [runPhase1, hinit2, hdet] at hr
        subst hr
        exact ⟨rfl, rfl, rfl, rfl, rfl⟩
      | none =>
        rcases hrm : fs.rootMainPy with _ | content
        · simp [runPhase1, hinit2, hdet, hrm] at hr
          subst hr
          exact ⟨rfl, rfl, rfl, rfl, rfl⟩
        · by_cases hdr : A.dryRun = true
          · simp [runPhase1, hinit2, hdet, hrm, hdr] at hr
            subst hr
            exact ⟨rfl, rfl, rfl, rfl, rfl⟩
          · have hdr2 : A.dryRun = false := by simpa using hdr
            simp [runPhase1, hinit2, hdet, hrm, hdr2] at hr
            subst hr
            exact ⟨rfl, rfl, rfl, rfl, rfl⟩

theorem phase2_dry (a : Args) (o : Oracle) (g : FS) (pn pd pv pkg : Option String)
    (hd : a.dryRun = true) :
    runPhase2 a o g pn pd pv pkg
      = ⟨g, [], none,
          [("editorconfig", (ensureEditorconfig g.editorconfig false).2),
           ("pre-commit", (ensurePrecommit g.precommit a.ruffOnly false).2),
           ("pyproject", (ensurePyproject g.pyproject a.ruffOnly a.python false pn pd pv pkg).2),
           ("ci", (ensureCI g.ciYml a.ruffOnly a.python false).2),
           ("requirements-dev", (ensureRequirementsDev g.reqDev a.ruffOnly false).2)]⟩ := by
  cases g with
  | mk rn ec pc pp ci rd rmp dirs ve =>
    simp [runPhase2, hd, editorconfig_dry, precommit_dry, pyproject_dry, ci_dry, reqdev_dry]

theorem phase2_report (a : Args) (o : Oracle) (g f : FS) (pn pd pv pkg : Option String)
    (h1 : g.editorconfig = f.editorconfig) (h2 : g.precommit = f.precommit)
    (h3 : g.pyproject = f.pyproject) (h4 : g.ciYml = f.ciYml) (h5 : g.reqDev = f.reqDev) :
    (runPhase2 a o g pn pd pv pkg).report
      = [("editorconfig", (ensureEditorconfig f.editorconfig false).2),
         ("pre-commit", (ensurePrecommit f.precommit a.ruffOnly false).2),
         ("pyproject", (ensurePyproject f.pyproject a.ruffOnly a.python false pn pd pv pkg).2),
         ("ci", (ensureCI f.ciYml a.ruffOnly a.python false).2),
         ("requirements-dev", (ensureRequirementsDev f.reqDev a.ruffOnly false).2)] := by
  by_cases hv : (!a.noVenv && !a.dryRun) = true
  · obtain ⟨w1, w2, w3, w4, w5⟩ := venv_fields g o a.ruffOnly a.dryRun
    simp [runPhase2, hv, w1, w2, w3, w4, w5, h1, h2, h3, h4, h5,
      editorconfig_flag, precommit_flag, pyproject_flag, ci_flag, reqdev_flag]
  · have hv2 : (!a.noVenv && !a.dryRun) = false := by simpa using hv
    simp [runPhase2, hv2, h1, h2, h3, h4, h5,
      editorconfig_flag, precommit_flag, pyproject_flag, ci_flag, reqdev_flag]

/-- C2: dry-run purity.  With the dry-run flag set, a run leaves the
filesystem exactly as it found it, launches no child process, and its
per-artifact changed-flag report equals the report of the same run
without the dry-run flag. -/
theorem c2_dry_run_purity (a : Args) (fs : FS) (o : Oracle) (hd : a.dryRun = true) :
    (runMain a fs o).fs = fs ∧ (runMain a fs o).procs = [] ∧
    (runMain a fs o).report = (runMain { a with dryRun := false } fs o).report := by
  have hmap := phase1_map a fs o hd
  rcases hp : runPhase1 { a with dryRun := false } fs o with e | ⟨g, pn, pd, pv, pkg⟩
  · rw [hp] at hmap
    simp only [Except.map] at hmap
    rw [runMain, hmap]
    rw [runMain, hp]
    exact ⟨rfl, rfl, rfl⟩
  · rw [hp] at hmap
    simp only [Except.map] at hmap
    obtain ⟨f1, f2, f3, f4, f5⟩ := phase1_fields { a with dryRun := false } fs o
      (g, pn, pd, pv, pkg) hp
    rw [runMain, hmap]
    rw [runMain, hp]
    show (runPhase2 a o fs pn pd pv pkg).fs = fs ∧
      (runPhase2 a o fs pn pd pv pkg).procs = [] ∧
      (runPhase2 a o fs pn pd pv pkg).report
        = (runPhase2 { a with dryRun := false } o g pn pd pv pkg).report
    rw [phase2_dry a o fs pn pd pv pkg hd]
    refine ⟨rfl, rfl, ?_⟩
    rw [phase2_report { a with dryRun := false } o g fs pn pd pv pkg f1 f2 f3 f4 f5]

/-- Witness for C2 at a concrete dry run over an empty project. -/
theorem c2_dry_run_purity_witness :
    (runMain ⟨"3.11", false, true, false, false, false, false, none, none, none⟩
      ⟨"proj", none, none, none, none, none, none, [], false⟩
      ⟨none, none, none, false, false, [], false, false, false, false, 0, false, 0, false, 0,
        fun _ => false⟩).fs
      = ⟨"proj", none, none, none, none, none, none, [], false⟩ ∧
    (runMain ⟨"3.11", false, true, false, false, false, false, none, none, none⟩
      ⟨"proj", none, none, none, none, none, none, [], false⟩
      ⟨none, none, none, false, false, [], false, false, false, false, 0, false, 0, false, 0,
        fun _ => false⟩).procs = [] ∧
    (runMain ⟨"3.11", false, true, false, false, false, false, none, none, none⟩
      ⟨"proj", none, none, none, none, none, none, [], false⟩
      ⟨none, none, none, false, false, [], false, false, false, false, 0, false, 0, false, 0,
        fun _ => false⟩).report
      = (runMain { (⟨"3.11", false, true, false, false, false, false, none, none, none⟩ : Args)
          with dryRun := false }
        ⟨"proj", none, none, none, none, none, none, [], false⟩
        ⟨none, none, none, false, false, [], false, false, false, false, 0, false, 0, false, 0,
          fun _ => false⟩).report :=
  c2_dry_run_purity ⟨"3.11", false, true, false, false, false, false, none, none, none⟩
    ⟨"proj", none, none, none, none, none, none, [], false⟩
    ⟨none, none, none, false, false, [], false, false, false, false, 0, false, 0, false, 0,
      fun _ => false⟩ rfl

/-! ### Flat-to-package conversion helpers -/

theorem findDir_mkdirP (ds : List PkgDir) (n : String) :
    ∃ d, findDir (mkdirP ds n) n = some d := by
  rw [mkdirP]
  by_cases h : (findDir ds n).isSome = true
  · rw [if_pos h]
    rcases ho : findDir ds n with _ | d
    · rw [ho] at h
      simp at h
    · exact ⟨d, rfl⟩
  · rw [if_neg h]
    have ho : findDir ds n = none := by
      rcases ho : findDir ds n with _ | d
      · rfl
      · rw [ho] at h
        simp at h
    refine ⟨⟨n, false, none⟩, ?_⟩
    rw [findDir] at ho ⊢
    rw [List.find?_append, ho]
    simp

theorem findDir_updateDir (ds : List PkgDir) (n : String) (f : PkgDir → PkgDir)
    (hf : ∀ d, (f d).name = d.name) :
    findDir (updateDir ds n f) n = (findDir ds n).map f := by
  induction ds with
  | nil => rfl
  | cons d rest ih =>
    by_cases hn : (d.name == n) = true
    · have hR : findDir (d :: rest) n = some d := List.find?_cons_of_pos _ hn
      rw [hR]
      show findDir ((if (d.name == n) = true then f d else d) :: updateDir rest n f) n
        = some (f d)
      rw [if_pos hn]
      refine List.find?_cons_of_pos _ ?_
      show ((f d).name == n) = true
      rw [hf d]
      exact hn
    · have hn2 : (d.name == n) = false := by simpa using hn
      have hR : findDir (d :: rest) n = findDir rest n := by
        rw [findDir, List.find?_cons_of_neg]
        · rfl
        · simp [hn2]
      rw [hR]
      show findDir ((if (d.name == n) = true then f d else d) :: updateDir rest n f) n
        = (findDir rest n).map f
      rw [if_neg (by simp [hn2])]
      have hL : findDir (d :: updateDir rest n f) n = findDir (updateDir rest n f) n := by
        rw [findDir, List.find?_cons_of_neg]
        · rfl
        · simp [hn2]
      rw [hL]
      exact ih

theorem convertFlat_spec (fs : FS) (n m : String) :
    (convertFlat fs n m).rootMainPy = none ∧
    ∃ d, findDir (convertFlat fs n m).dirs n = some d ∧
      d.hasInit = true ∧ d.mainPy = some m := by
  refine ⟨rfl, ?_⟩
  obtain ⟨d0, hd0⟩ := findDir_mkdirP fs.dirs n
  refine ⟨⟨d0.name, true, some m⟩, ?_, rfl, rfl⟩
  show findDir (updateDir (updateDir (mkdirP fs.dirs n) n
    (fun d => { d with hasInit := true })) n (fun d => { d with mainPy := some m })) n = _
  rw [findDir_updateDir (updateDir (mkdirP fs.dirs n) n (fun d => { d with hasInit := true }))
    n (fun d => { d with mainPy := some m }) (fun d => rfl)]
  rw [findDir_updateDir (mkdirP fs.dirs n) n (fun d => { d with hasInit := true })
    (fun d => rfl)]
  rw [hd0]
  rfl

theorem venv_frame (fs : FS) (o : Oracle) (ro dry : Bool) :
    (ensureVenvAndDeps fs o ro dry).1.dirs = fs.dirs ∧
    (ensureVenvAndDeps fs o ro dry).1.rootMainPy = fs.rootMainPy := by
  cases hv : fs.venvExists <;> cases dry <;> cases hc : o.venvCreateOk <;>
    cases hp : o.venvPythonAppears <;> cases hk : o.pipOk <;>
    simp [ensureVenvAndDeps, hv, hc, hp, hk]

theorem phase2_frame (a : Args) (o : Oracle) (g : FS) (pn pd pv pkg : Option String) :
    (runPhase2 a o g pn pd pv pkg).fs.dirs = g.dirs ∧
    (runPhase2 a o g pn pd pv pkg).fs.rootMainPy = g.rootMainPy ∧
    (runPhase2 a o g pn pd pv pkg).abort = none := by
  by_cases hv : (!a.noVenv && !a.dryRun) = true
  · obtain ⟨w1, w2⟩ := venv_frame g o a.ruffOnly a.dryRun
    simp [runPhase2, hv, w1, w2]
  · have hv2 : (!a.noVenv && !a.dryRun) = false := by simpa using hv
    simp [runPhase2, hv2]

/-- C5: flat-to-package conversion.  When the root holds a `main.py`, no
non-hidden subdirectory carries an `__init__.py`, and `pyproject.toml`
(when parseable at all) declares no package, a non-dry non-initialize
run completes without aborting, removes the root `main.py`, and leaves a
package directory named after the project root containing the
`__init__.py` marker and a `main.py` with the original content. -/
theorem c5_flat_to_package (a : Args) (fs : FS) (o : Oracle) (m : String)
    (hinit : a.initMode = false) (hdry : a.dryRun = false)
    (hrm : fs.rootMainPy = some m)
    (hdirs : ∀ d ∈ fs.dirs, pyStartsWith d.name "." = true ∨ d.hasInit = false)
    (htoml : fs.pyproject.isSome = true → o.tomlAvail = true →
      o.tomlOk = true ∧ o.tomlPackages = []) :
    (runMain a fs o).abort = none ∧
    (runMain a fs o).fs.rootMainPy = none ∧
    ∃ d, findDir (runMain a fs o).fs.dirs (inferNameFromDirectory fs.rootName) = some d ∧
      d.hasInit = true ∧ d.mainPy = some m := by
  have hfind : fs.dirs.find? (fun d => !(pyStartsWith d.name ".") && d.hasInit) = none := by
    rw [List.find?_eq_none]
    intro d hd
    rcases hdirs d hd with h | h
    · simp [h]
    · simp [h]
  have hdet : detectPackageStructure fs o = .ok none := by
    by_cases hpy : fs.pyproject.isSome = true
    · by_cases hta : o.tomlAvail = true
      · obtain ⟨hok, hpk⟩ := htoml hpy hta
        simp [detectPackageStructure, hfind, hpy, hta, hok, hpk]
      · have hta2 : o.tomlAvail = false := by simpa using hta
        simp [detectPackageStructure, hfind, hpy, hta2]
    · have hpy2 : fs.pyproject.isSome = false := by simpa using hpy
      simp [detectPackageStructure, hfind, hpy2]
  have hp1 : runPhase1 a fs o = .ok (convertFlat fs (inferNameFromDirectory fs.rootName) m,
      some (inferNameFromDirectory fs.rootName), none, none,
      some (hyphenToUnderscore (inferNameFromDirectory fs.rootName))) := by
    simp [runPhase1, hinit, hdet, hrm, hdry]
  rw [runMain, hp1]
  obtain ⟨g1, g2, g3⟩ := phase2_frame a o
    (convertFlat fs (inferNameFromDirectory fs.rootName) m)
    (some (inferNameFromDirectory fs.rootName)) none none
    (some (hyphenToUnderscore (inferNameFromDirectory fs.rootName)))
  obtain ⟨c1, c2⟩ := convertFlat_spec fs (inferNameFromDirectory fs.rootName) m
  refine ⟨g3, ?_, ?_⟩
  · rw [g2]
    exact c1
  · rw [g1]
    exact c2

/-- Witness for C5 on a concrete one-file project. -/
theorem c5_flat_to_package_witness :
    (runMain ⟨"3.11", false, false, false, false, false, false, none, none, none⟩
      ⟨"My Proj", none, none, none, none, none, some "print(1)\n", [], false⟩
      ⟨none, none, none, false, false, [], false, false, false, false, 0, false, 0, false, 0,
        fun _ => false⟩).abort = none ∧
    (runMain ⟨"3.11", false, false, false, false, false, false, none, none, none⟩
      ⟨"My Proj", none, none, none, none, none, some "print(1)\n", [], false⟩
      ⟨none, none, none, false, false, [], false, false, false, false, 0, false, 0, false, 0,
        fun _ => false⟩).fs.rootMainPy = none ∧
    ∃ d, findDir (runMain ⟨"3.11", false, false, false, false, false, false, none, none, none⟩
      ⟨"My Proj", none, none, none, none, none, some "print(1)\n", [], false⟩
      ⟨none, none, none, false, false, [], false, false, false, false, 0, false, 0, false, 0,
        fun _ => false⟩).fs.dirs (inferNameFromDirectory "My Proj") = some d ∧
      d.hasInit = true ∧ d.mainPy = some "print(1)\n" :=
  c5_flat_to_package ⟨"3.11", false, false, false, false, false, false, none, none, none⟩
    ⟨"My Proj", none, none, none, none, none, some "print(1)\n", [], false⟩
    ⟨none, none, none, false, false, [], false, false, false, false, 0, false, 0, false, 0,
      fun _ => false⟩ "print(1)\n" rfl rfl rfl
    (fun d hd => absurd hd (List.not_mem_nil d))
    (fun h _ => absurd h (by decide))

/-- C8: prompt cancellation does abort the run with the distinct
cancellation status (first conjunct, for every configuration whose
name prompt is cancelled); but it is NOT the only hard failure: a
malformed `pyproject.toml` (`tomllib.loads` raising `TOMLDecodeError`,
which the `except ImportError` around it does not catch) aborts the
run with an uncaught exception (second conjunct), refuting the claim
that nothing else escalates to a hard process failure. -/
theorem c8_error_escalation :
    (∀ (a : Args) (fs : FS) (o : Oracle), a.initMode = true → a.nameOpt = none →
      o.promptName = none → (runMain a fs o).abort = some AbortKind.cancelled) ∧
    (runMain ⟨"3.11", false, false, false, false, false, false, none, none, none⟩
      ⟨"proj", none, none, some "[tool.setuptools\n", none, none, none, [], false⟩
      ⟨none, none, none, true, false, [], false, false, false, false, 0, false, 0, false, 0,
        fun _ => false⟩).abort = some AbortKind.uncaughtError := by
  constructor
  · intro a fs o hinit hname hprompt
    have hp : runPhase1 a fs o = .error .cancelled := by
      simp [runPhase1, hinit, initializeProject, askIf, hname, hprompt]
    rw [runMain, hp]
  · rfl

/-- Witness for C8 at a concrete cancelled initialization. -/
theorem c8_error_escalation_witness :
    (runMain ⟨"3.11", false, false, false, false, false, true, none, none, none⟩
      ⟨"proj", none, none, none, none, none, none, [], false⟩
      ⟨none, none, none, false, false, [], false, false, false, false, 0, false, 0, false, 0,
        fun _ => false⟩).abort = some AbortKind.cancelled :=
  c8_error_escalation.1 ⟨"3.11", false, false, false, false, false, true, none, none, none⟩
    ⟨"proj", none, none, none, none, none, none, [], false⟩
    ⟨none, none, none, false, false, [], false, false, false, false, 0, false, 0, false, 0,
      fun _ => false⟩ rfl rfl rfl
